import Mathlib

/-!
# Verification of the schemaful-cloud workspace control plane

Shallow embedding of the business logic of `apps/cloud/server/utils.ts`,
`apps/cloud/server/routers/workspaces.ts`, `apps/cloud/server/index.ts`
and `apps/cloud/api/workspaces/index.ts`, with proofs about slug
validation, unique-slug generation, Stripe signature-header parsing,
workspace creation, the member-role authorization rules, and the
invitation lifecycle.

Database rows are modelled as Lean structures, the database as lists of
rows; drizzle queries of the form `select().where(...).limit(1)` with a
single-element destructuring become `List.find?`, `delete ... where`
becomes `List.filter`, `update ... set ... where` becomes `List.map`,
and `insert` becomes list append.  Every tRPC mutation/query is embedded
as a pure function from the database (plus its inputs and the outcomes
of external calls, passed as explicit arguments) to a pair of a
`Except TRPCError` result and the resulting database; the handlers
throw before any write, so every error path returns the database
unchanged by construction.  Timestamps (`Date`) are naturals counting
milliseconds since the epoch.
-/

namespace SchemafulCloud

/-! ## Slug validation (`apps/cloud/server/utils.ts` and
    `apps/cloud/api/workspaces/index.ts`) -/

/-- A lowercase ASCII letter, the character class `[a-z]`. -/
def isLowerAlpha (c : Char) : Bool :=
  'a' ≤ c && c ≤ 'z'

/-- An ASCII digit, the character class `[0-9]`. -/
def isDigitChar (c : Char) : Bool :=
  '0' ≤ c && c ≤ '9'

/-- The character class `[a-z0-9]`. -/
def isLowerAlnum (c : Char) : Bool :=
  isLowerAlpha c || isDigitChar c

/-- The character class `[a-z0-9-]`. -/
def isSlugChar (c : Char) : Bool :=
  isLowerAlnum c || c == '-'

/-- Interior of the slug regex: a (possibly empty) run of `[a-z0-9-]`
followed by a final `[a-z0-9]`, i.e. the `[a-z0-9-]*[a-z0-9]$` tail. -/
def slugTailMatch : List Char → Bool
  | [] => false
  | [c] => isLowerAlnum c
  | c :: rest => isSlugChar c && slugTailMatch rest

/-- Full-string match of the regex `/^[a-z][a-z0-9-]*[a-z0-9]$/` used by
`isValidWorkspaceSlug`, `createWorkspaceSchema` and the express
`POST /api/workspaces` schema. -/
def matchesSlugPattern (s : String) : Bool :=
  match s.data with
  | [] => false
  | c :: rest => isLowerAlpha c && slugTailMatch rest

/-- Whether the character list contains two consecutive hyphens,
the `slug.includes("--")` check. -/
def hasDoubleHyphen : List Char → Bool
  | [] => false
  | [_] => false
  | a :: b :: rest => (a == '-' && b == '-') || hasDoubleHyphen (b :: rest)

/-- `isValidWorkspaceSlug` from `apps/cloud/server/utils.ts`:
length in [3,50], then the regex, then no `"--"`.  Note that this helper
does **not** consult the reserved-slug list. -/
def isValidWorkspaceSlug (slug : String) : Bool :=
  if slug.length < 3 || slug.length > 50 then false
  else if !matchesSlugPattern slug then false
  else if hasDoubleHyphen slug.data then false
  else true

/-- `RESERVED_SLUGS` from `apps/cloud/api/workspaces/index.ts`. -/
def RESERVED_SLUGS : List String :=
  ["api", "admin", "auth", "app", "www", "mail", "ftp", "new", "create",
   "settings", "account", "billing", "support", "help", "docs",
   "documentation", "status", "health", "static", "assets", "cdn"]

/-- The slug field of `createWorkspaceSchema` from
`apps/cloud/api/workspaces/index.ts`: `z.string().min(3).max(50)
.regex(SLUG_PATTERN).refine(no "--").refine(not reserved)` — all five
checks must pass. -/
def createWorkspaceSlugValid (slug : String) : Bool :=
  3 ≤ slug.length && slug.length ≤ 50 && matchesSlugPattern slug &&
    !hasDoubleHyphen slug.data && !RESERVED_SLUGS.contains slug

/-! ## Stripe signature-header parsing (`apps/cloud/server/utils.ts`) -/

/-- Characters skipped by `parseInt` before the number: JavaScript
string whitespace (the common ASCII and Unicode members). -/
def isJsWhitespace (c : Char) : Bool :=
  c == ' ' || c == '\t' || c == '\n' || c == '\r' ||
  c == '\x0b' || c == '\x0c' || c == ' ' || c == '﻿'

/-- Value of a (sign-less) decimal digit string prefix, longest-prefix
style: consume digits until the first non-digit. -/
def decDigitsPrefix : List Char → Option Nat
  | [] => none
  | c :: rest =>
    if isDigitChar c then
      some (decDigitsPrefixGo (c.toNat - '0'.toNat) rest)
    else none
where
  decDigitsPrefixGo (acc : Nat) : List Char → Nat
    | [] => acc
    | c :: rest =>
      if isDigitChar c then decDigitsPrefixGo (acc * 10 + (c.toNat - '0'.toNat)) rest
      else acc

/-- JavaScript `parseInt(value, 10)` on an optional string (`undefined`
is `none`): skip leading whitespace, accept an optional sign, then take
the longest decimal-digit prefix; `none` models `NaN`. -/
def jsParseInt : Option String → Option Int
  | none => none
  | some s =>
    let trimmed := s.data.dropWhile isJsWhitespace
    match trimmed with
    | '-' :: rest => (decDigitsPrefix rest).map (fun n => -(n : Int))
    | '+' :: rest => (decDigitsPrefix rest).map (fun n => (n : Int))
    | rest => (decDigitsPrefix rest).map (fun n => (n : Int))

/-- JavaScript `String.prototype.split` for the single-character
separators the webhook parser uses (`","` and `"="`): split at every
occurrence of the separator, keeping empty segments, so `""` splits to
`[""]`. -/
def splitOnChar (sep : Char) : List Char → List (List Char)
  | [] => [[]]
  | c :: rest =>
    if c == sep then [] :: splitOnChar sep rest
    else
      match splitOnChar sep rest with
      | [] => [[c]]
      | seg :: segs => (c :: seg) :: segs

/-- `s.split(sep)` as a list of strings. -/
def jsSplit (sep : Char) (s : String) : List String :=
  (splitOnChar sep s.data).map fun cs => String.mk cs

/-- One `key=value` part of the signature header:
`const [key, value] = part.split("=")` — the key is the first segment
(an empty split never happens: `"".split("=")` is `[""]`), the value is
the second segment if present, `undefined` (here `none`) otherwise. -/
def splitPart (part : String) : String × Option String :=
  let segs := jsSplit '=' part
  (segs.headD "", segs[1]?)

/-- The parts of the header, `header.split(",")` then each part split at
`"="`. -/
def sigParts (header : String) : List (String × Option String) :=
  (jsSplit ',' header).map splitPart

/-- The `for (const part of parts)` loop of `parseStripeSignature`,
carrying the running `timestamp` (initially `0`) and `signatures`
(initially `[]`): a `t` part whose value fails `parseInt` returns null
immediately; otherwise `t` overwrites the timestamp and `v1` appends
the (possibly `undefined`) value; after the loop, a zero timestamp or
an empty signature list yields null. -/
def sigScan : List (String × Option String) → Int → List (Option String) →
    Option (Int × List (Option String))
  | [], timestamp, signatures =>
    if timestamp == 0 || signatures.isEmpty then none
    else some (timestamp, signatures)
  | (key, value) :: rest, timestamp, signatures =>
    if key == "t" then
      match jsParseInt value with
      | none => none
      | some parsed => sigScan rest parsed signatures
    else if key == "v1" then
      sigScan rest timestamp (signatures ++ [value])
    else
      sigScan rest timestamp signatures

/-- `parseStripeSignature` from `apps/cloud/server/utils.ts`. -/
def parseStripeSignature (header : String) :
    Option (Int × List (Option String)) :=
  sigScan (sigParts header) 0 []

/-! ## Data model (`@schemaful-ee/auth` schema, as used by the routers) -/

/-- `MemberRole` from the auth schema. -/
inductive Role where
  | owner
  | admin
  | editor
  | viewer
deriving DecidableEq, Repr

/-- The roles accepted by the `z.enum(["admin", "editor", "viewer"])`
input validators of `members.updateRole` and `invitations.create`:
`owner` is not an accepted input. -/
inductive InputRole where
  | admin
  | editor
  | viewer
deriving DecidableEq, Repr

/-- Embedding of an accepted input role into `MemberRole`. -/
def InputRole.toRole : InputRole → Role
  | .admin => .admin
  | .editor => .editor
  | .viewer => .viewer

/-- A row of the `workspaces` table. -/
structure Workspace where
  id : String
  name : String
  slug : String
  plan : String
  neonProjectId : Option String
  databaseUrl : Option String
  poolerUrl : Option String
  stripeCustomerId : Option String
  isSuspended : Bool
  createdAt : Nat
  updatedAt : Nat
deriving DecidableEq, Repr

/-- A row of the `workspaceMembers` table (composite key
`(workspaceId, userId)`). -/
structure WorkspaceMember where
  workspaceId : String
  userId : String
  role : Role
  createdAt : Nat
  updatedAt : Nat
deriving DecidableEq, Repr

/-- A row of the `workspaceInvitations` table. -/
structure WorkspaceInvitation where
  id : String
  workspaceId : String
  email : String
  role : Role
  token : String
  invitedBy : String
  expiresAt : Nat
  acceptedAt : Option Nat
  createdAt : Nat
deriving DecidableEq, Repr

/-- A row of the `cloudUsers` table (the fields the workspace router
reads). -/
structure CloudUserRow where
  id : String
  email : String
deriving DecidableEq, Repr

/-- The cloud database: the four tables touched by the workspaces
router, each a list of rows in insertion order. -/
structure DB where
  workspaces : List Workspace
  workspaceMembers : List WorkspaceMember
  workspaceInvitations : List WorkspaceInvitation
  cloudUsers : List CloudUserRow
deriving DecidableEq, Repr

/-- The empty database. -/
def DB.empty : DB := ⟨[], [], [], []⟩

/-- tRPC error codes used by the workspaces router. -/
inductive ErrCode where
  | UNAUTHORIZED
  | FORBIDDEN
  | BAD_REQUEST
  | NOT_FOUND
  | CONFLICT
  | INTERNAL_SERVER_ERROR
deriving DecidableEq, Repr

/-- A `TRPCError ({code, message})`. -/
structure TRPCError where
  code : ErrCode
  message : String
deriving DecidableEq, Repr

/-- The authenticated request context (`ctx.user` after the
`isAuthenticated` middleware). -/
structure Ctx where
  userId : String
  userEmail : String
deriving DecidableEq, Repr

/-! ## Helpers of `apps/cloud/server/routers/workspaces.ts` -/

/-- `getWorkspaceMembership`: first `workspaceMembers` row matching the
composite key, via `select().where(and(eq,eq)).limit(1)`. -/
def getWorkspaceMembership (db : DB) (workspaceId userId : String) :
    Option WorkspaceMember :=
  db.workspaceMembers.find? fun m =>
    m.workspaceId == workspaceId && m.userId == userId

/-- `isAdminOrOwner`. -/
def isAdminOrOwner (role : Role) : Bool :=
  role == .owner || role == .admin

/-- `isOwner`. -/
def isOwner (role : Role) : Bool :=
  role == .owner

/-! ## Unique-slug generation -/

/-- JavaScript `String.prototype.toLowerCase()` on the ASCII emails the
router handles: map each `A`–`Z` to its lowercase counterpart. -/
def jsToLower (s : String) : String :=
  String.mk (s.data.map fun c =>
    if 'A' ≤ c && c ≤ 'Z' then Char.ofNat (c.toNat + 32) else c)

/-- `slugify` from `@schemaful/shared`.  Modelled from the spec: the
shared package is not part of this repository; §4.1 describes the
slugify path as "lower-cases, strips non [a-z0-9 space hyphen]
characters, collapses whitespace to single hyphens, collapses repeated
hyphens, and trims leading/trailing hyphens from a display name". -/
def slugify (name : String) : String :=
  let lowered := (jsToLower name).data
  let stripped := lowered.filter fun c =>
    isLowerAlpha c || isDigitChar c || c == ' ' || c == '-'
  let hyphened := stripped.map fun c => if c == ' ' then '-' else c
  let collapsed := collapseHyphens hyphened
  String.mk ((collapsed.dropWhile (· == '-')).reverse.dropWhile (· == '-')
    |>.reverse)
where
  /-- Collapse each run of consecutive hyphens to a single hyphen. -/
  collapseHyphens : List Char → List Char
    | [] => []
    | '-' :: rest =>
      match collapseHyphens rest with
      | '-' :: tail => '-' :: tail
      | tail => '-' :: tail
    | c :: rest => c :: collapseHyphens rest

/-- The `while (attempts < maxAttempts)` loop of `generateUniqueSlug`:
each iteration probes the current candidate against storage (`taken`);
a free candidate is returned, otherwise the next candidate is the base
slug, a hyphen and the next random suffix.  The random suffixes drawn
by `Math.random().toString(36).substring(2, 6)` are passed in as a
list whose length is the remaining attempt budget (`maxAttempts = 10`
at the call site); one suffix is consumed per failed probe, and the
list running out is the `attempts < maxAttempts` guard failing. -/
def generateUniqueSlugLoop (taken : String → Bool) (baseSlug : String) :
    String → List String → Except String String
  | _, [] => .error "Could not generate a unique slug after multiple attempts"
  | slug, suffix :: rest =>
    if taken slug then
      generateUniqueSlugLoop taken baseSlug (baseSlug ++ "-" ++ suffix) rest
    else
      .ok slug

/-- `generateUniqueSlug` from `apps/cloud/server/routers/workspaces.ts`
(`maxAttempts = 10`, so the caller passes ten suffixes): probe
`slugify(name)` first, then suffixed candidates. -/
def generateUniqueSlug (taken : String → Bool) (name : String)
    (suffixes : List String) : Except String String :=
  generateUniqueSlugLoop taken (slugify name) (slugify name) suffixes

/-- The candidates the loop probes, in order: the current candidate,
then the suffixed ones built while suffixes remain. -/
def slugCandidates (baseSlug : String) : String → List String → List String
  | _, [] => []
  | slug, suffix :: rest =>
    slug :: slugCandidates baseSlug (baseSlug ++ "-" ++ suffix) rest

/-! ## Workspace creation

Outcomes of the external calls (`provisionDatabase`, `createCustomer`,
`crypto.randomUUID`, `Math.random`, `new Date()`) are passed to the
embedded handlers as explicit arguments: each handler makes exactly one
provisioning call, whose single outcome is the `provision` argument —
there is no retry of a failed provisioning call anywhere in the
handlers. -/

/-- Result of the single `provisionDatabase(slug)` call. -/
structure ProvisionResult where
  success : Bool
  error : Option String
  projectId : Option String
  connectionString : Option String
  poolerConnectionString : Option String
deriving DecidableEq, Repr

/-- Input of the tRPC `workspaces.create` mutation after zod parsing:
`name` (1–255 chars), optional `slug`, `createStripeCustomer`
(default `false`). -/
structure CreateWorkspaceInput where
  name : String
  slug : Option String
  createStripeCustomer : Bool
deriving DecidableEq, Repr

/-- The tRPC `workspaces.create` mutation
(`apps/cloud/server/routers/workspaces.ts`): resolve the slug
(explicit, or generated with ten attempts), reject a taken slug with
CONFLICT, abort with INTERNAL_SERVER_ERROR if provisioning fails, then
(after the best-effort Stripe customer creation, whose failure is
swallowed and modelled by `stripeCustomer = none`) insert the workspace
row and the creator's `owner` membership, both stamped `now`.  The
handler's final re-select of the row it just inserted is elided: the
returned payload is the inserted record itself. -/
def workspacesCreate (db : DB) (ctx : Ctx) (input : CreateWorkspaceInput)
    (suffixes : List String) (provision : ProvisionResult)
    (stripeCustomer : Option String) (workspaceId : String) (now : Nat) :
    Except TRPCError (Workspace × Role) × DB :=
  let slugResult : Except TRPCError String :=
    match input.slug with
    | some s => .ok s
    | none =>
      match generateUniqueSlug (fun s =>
          (db.workspaces.find? fun w => w.slug == s).isSome) input.name
          suffixes with
      | .ok s => .ok s
      | .error e => .error ⟨.INTERNAL_SERVER_ERROR, e⟩
  match slugResult with
  | .error e => (.error e, db)
  | .ok slug =>
    if (db.workspaces.find? fun w => w.slug == slug).isSome then
      (.error ⟨.CONFLICT, "Workspace slug is already taken"⟩, db)
    else if !provision.success then
      (.error ⟨.INTERNAL_SERVER_ERROR,
        "Failed to provision database: " ++
          (provision.error.getD "undefined")⟩, db)
    else
      let stripeCustomerId :=
        if input.createStripeCustomer && ctx.userEmail != "" then
          stripeCustomer
        else none
      let workspace : Workspace :=
        { id := workspaceId
          name := input.name
          slug := slug
          plan := "free"
          neonProjectId := provision.projectId
          databaseUrl := provision.connectionString
          poolerUrl := provision.poolerConnectionString
          stripeCustomerId := stripeCustomerId
          isSuspended := false
          createdAt := now
          updatedAt := now }
      let member : WorkspaceMember :=
        { workspaceId := workspaceId
          userId := ctx.userId
          role := .owner
          createdAt := now
          updatedAt := now }
      (.ok (workspace, .owner),
       { db with
          workspaces := db.workspaces ++ [workspace]
          workspaceMembers := db.workspaceMembers ++ [member] })

/-- Outcome of the express `POST /api/workspaces` handler
(`apps/cloud/server/index.ts`). -/
inductive RestCreateResult where
  | validationFailed
  | slugExists
  | provisioningFailed
  | created (workspaceId : String) (name : String) (slug : String)
deriving DecidableEq, Repr

/-- The express `POST /api/workspaces` handler for an authenticated
session: inline zod schema (name 1–100 chars, slug 3–50 chars matching
the slug regex), a 409 on a taken slug, provisioning only when
`NEON_API_KEY` is configured with a 500 aborting before any insert on a
failed provisioning call, then the workspace and owner-membership
inserts (`createdAt`/`updatedAt` filled by column defaults, modelled as
`now`). -/
def restCreateWorkspace (db : DB) (userId : String) (name slug : String)
    (neonConfigured : Bool) (provision : ProvisionResult)
    (workspaceId : String) (now : Nat) : RestCreateResult × DB :=
  if !(1 ≤ name.length && name.length ≤ 100 &&
       3 ≤ slug.length && slug.length ≤ 50 && matchesSlugPattern slug) then
    (.validationFailed, db)
  else if (db.workspaces.find? fun w => w.slug == slug).isSome then
    (.slugExists, db)
  else if neonConfigured && !provision.success then
    (.provisioningFailed, db)
  else
    let workspace : Workspace :=
      { id := workspaceId
        name := name
        slug := slug
        plan := "free"
        neonProjectId := if neonConfigured then provision.projectId else none
        databaseUrl :=
          if neonConfigured then provision.connectionString else none
        poolerUrl :=
          if neonConfigured then provision.poolerConnectionString else none
        stripeCustomerId := none
        isSuspended := false
        createdAt := now
        updatedAt := now }
    let member : WorkspaceMember :=
      { workspaceId := workspaceId
        userId := userId
        role := .owner
        createdAt := now
        updatedAt := now }
    (.created workspaceId name slug,
     { db with
        workspaces := db.workspaces ++ [workspace]
        workspaceMembers := db.workspaceMembers ++ [member] })

/-! ## Members sub-router -/

/-- Input of `members.updateRole` after zod parsing. -/
structure UpdateRoleInput where
  workspaceId : String
  userId : String
  role : InputRole
deriving DecidableEq, Repr

/-- `members.updateRole`: only admins/owners may act, never on
themselves, the target must be a member and not the owner, and an admin
may not promote to admin; on success the target row's role and
`updatedAt` are updated in place. -/
def membersUpdateRole (db : DB) (ctx : Ctx) (input : UpdateRoleInput)
    (now : Nat) : Except TRPCError Unit × DB :=
  match getWorkspaceMembership db input.workspaceId ctx.userId with
  | none =>
    (.error ⟨.FORBIDDEN, "Only admins or owners can change member roles"⟩, db)
  | some currentMembership =>
    if !isAdminOrOwner currentMembership.role then
      (.error ⟨.FORBIDDEN, "Only admins or owners can change member roles"⟩,
       db)
    else if input.userId == ctx.userId then
      (.error ⟨.BAD_REQUEST, "You cannot change your own role"⟩, db)
    else
      match getWorkspaceMembership db input.workspaceId input.userId with
      | none => (.error ⟨.NOT_FOUND, "Member not found"⟩, db)
      | some targetMembership =>
        if isOwner targetMembership.role then
          (.error ⟨.FORBIDDEN, "Cannot change the owner's role"⟩, db)
        else if currentMembership.role == .admin && input.role == .admin then
          (.error ⟨.FORBIDDEN, "Only owners can promote members to admin"⟩,
           db)
        else
          (.ok (),
           { db with
              workspaceMembers := db.workspaceMembers.map fun m =>
                if m.workspaceId == input.workspaceId &&
                   m.userId == input.userId then
                  { m with role := input.role.toRole, updatedAt := now }
                else m })

/-- `members.remove`: only admins/owners may act, never on themselves,
the target must be a member, never the owner, and an admin may not
remove another admin; on success the target's rows are deleted. -/
def membersRemove (db : DB) (ctx : Ctx) (workspaceId userId : String) :
    Except TRPCError Unit × DB :=
  match getWorkspaceMembership db workspaceId ctx.userId with
  | none =>
    (.error ⟨.FORBIDDEN, "Only admins or owners can remove members"⟩, db)
  | some currentMembership =>
    if !isAdminOrOwner currentMembership.role then
      (.error ⟨.FORBIDDEN, "Only admins or owners can remove members"⟩, db)
    else if userId == ctx.userId then
      (.error ⟨.BAD_REQUEST,
        "You cannot remove yourself. Transfer ownership first."⟩, db)
    else
      match getWorkspaceMembership db workspaceId userId with
      | none => (.error ⟨.NOT_FOUND, "Member not found"⟩, db)
      | some targetMembership =>
        if isOwner targetMembership.role then
          (.error ⟨.FORBIDDEN, "Cannot remove the workspace owner"⟩, db)
        else if currentMembership.role == .admin &&
            targetMembership.role == .admin then
          (.error ⟨.FORBIDDEN, "Admins cannot remove other admins"⟩, db)
        else
          (.ok (),
           { db with
              workspaceMembers := db.workspaceMembers.filter fun m =>
                !(m.workspaceId == workspaceId && m.userId == userId) })

/-- `members.leave`: any member except the owner may leave; the
member's own rows are deleted. -/
def membersLeave (db : DB) (ctx : Ctx) (workspaceId : String) :
    Except TRPCError Unit × DB :=
  match getWorkspaceMembership db workspaceId ctx.userId with
  | none =>
    (.error ⟨.FORBIDDEN, "You are not a member of this workspace"⟩, db)
  | some membership =>
    if isOwner membership.role then
      (.error ⟨.FORBIDDEN,
        "Owners cannot leave the workspace. Transfer ownership or delete the workspace instead."⟩,
       db)
    else
      (.ok (),
       { db with
          workspaceMembers := db.workspaceMembers.filter fun m =>
            !(m.workspaceId == workspaceId && m.userId == ctx.userId) })

/-! ## Invitations sub-router -/

/-- Input of `invitations.create` after zod parsing
(`email: z.string().email()`, `role: z.enum(["admin","editor","viewer"])`). -/
structure CreateInvitationInput where
  workspaceId : String
  email : String
  role : InputRole
deriving DecidableEq, Repr

/-- The already-a-member check of `invitations.create`: look up a cloud
user by the lowercased email, and if one exists, look up their
membership in the workspace. -/
def emailHasMembership (db : DB) (workspaceId emailLower : String) : Bool :=
  match db.cloudUsers.find? fun u => u.email == emailLower with
  | some existingUser =>
    (getWorkspaceMembership db workspaceId existingUser.id).isSome
  | none => false

/-- `invitations.create`: only admins/owners may invite, an admin may
not invite an admin, an email that already belongs to a member or that
already has **any** invitation row in the workspace is a CONFLICT;
otherwise an invitation with a fresh id and token, a 7-day expiry and a
null `acceptedAt` is inserted (email stored lowercased). -/
def invitationsCreate (db : DB) (ctx : Ctx) (input : CreateInvitationInput)
    (now : Nat) (newId token : String) :
    Except TRPCError WorkspaceInvitation × DB :=
  match getWorkspaceMembership db input.workspaceId ctx.userId with
  | none =>
    (.error ⟨.FORBIDDEN, "Only admins or owners can create invitations"⟩, db)
  | some membership =>
    if !isAdminOrOwner membership.role then
      (.error ⟨.FORBIDDEN, "Only admins or owners can create invitations"⟩,
       db)
    else if membership.role == .admin && input.role == .admin then
      (.error ⟨.FORBIDDEN, "Only owners can invite admins"⟩, db)
    else if emailHasMembership db input.workspaceId (jsToLower input.email) then
      (.error ⟨.CONFLICT, "User is already a member of this workspace"⟩, db)
    else if (db.workspaceInvitations.find? fun i =>
        i.workspaceId == input.workspaceId &&
        i.email == jsToLower input.email).isSome then
      (.error ⟨.CONFLICT, "An invitation has already been sent to this email"⟩,
       db)
    else
      let invitation : WorkspaceInvitation :=
        { id := newId
          workspaceId := input.workspaceId
          email := jsToLower input.email
          role := input.role.toRole
          token := token
          invitedBy := ctx.userId
          expiresAt := now + 7 * 24 * 60 * 60 * 1000
          acceptedAt := none
          createdAt := now }
      (.ok invitation,
       { db with
          workspaceInvitations := db.workspaceInvitations ++ [invitation] })

/-- `invitations.revoke`: only admins/owners may revoke; the invitation
must exist in the workspace; its row is deleted permanently. -/
def invitationsRevoke (db : DB) (ctx : Ctx)
    (workspaceId invitationId : String) : Except TRPCError Unit × DB :=
  match getWorkspaceMembership db workspaceId ctx.userId with
  | none =>
    (.error ⟨.FORBIDDEN, "Only admins or owners can revoke invitations"⟩, db)
  | some membership =>
    if !isAdminOrOwner membership.role then
      (.error ⟨.FORBIDDEN, "Only admins or owners can revoke invitations"⟩,
       db)
    else if (db.workspaceInvitations.find? fun i =>
        i.id == invitationId && i.workspaceId == workspaceId).isNone then
      (.error ⟨.NOT_FOUND, "Invitation not found"⟩, db)
    else
      (.ok (),
       { db with
          workspaceInvitations := db.workspaceInvitations.filter fun i =>
            !(i.id == invitationId) })

/-- `invitations.accept`: the token must match an invitation that is
unexpired (`expiresAt < new Date()` is the expiry test) and unaccepted,
sent to the session user's email (case-insensitively), for a workspace
the user is not yet a member of; on success a membership row with the
invited role is inserted and the invitation's `acceptedAt` is set, both
with the same `now` timestamp. -/
def invitationsAccept (db : DB) (ctx : Ctx) (token : String) (now : Nat) :
    Except TRPCError (Option (String × String × String)) × DB :=
  match db.workspaceInvitations.find? fun i => i.token == token with
  | none => (.error ⟨.NOT_FOUND, "Invitation not found"⟩, db)
  | some invitation =>
    if invitation.expiresAt < now then
      (.error ⟨.BAD_REQUEST, "Invitation has expired"⟩, db)
    else if invitation.acceptedAt.isSome then
      (.error ⟨.BAD_REQUEST, "Invitation has already been accepted"⟩, db)
    else if jsToLower invitation.email != jsToLower ctx.userEmail then
      (.error ⟨.FORBIDDEN,
        "This invitation was sent to a different email address"⟩, db)
    else if (getWorkspaceMembership db invitation.workspaceId
        ctx.userId).isSome then
      (.error ⟨.CONFLICT, "You are already a member of this workspace"⟩, db)
    else
      let newMember : WorkspaceMember :=
        { workspaceId := invitation.workspaceId
          userId := ctx.userId
          role := invitation.role
          createdAt := now
          updatedAt := now }
      let db' : DB :=
        { db with
            workspaceMembers := db.workspaceMembers ++ [newMember]
            workspaceInvitations := db.workspaceInvitations.map fun i =>
              if i.id == invitation.id then { i with acceptedAt := some now }
              else i }
      let workspace := db'.workspaces.find? fun w =>
        w.id == invitation.workspaceId
      (.ok (workspace.map fun w => (w.id, w.slug, w.name)), db')

/-- The row shape returned by `invitations.getByToken`: the invitation
fields joined with the workspace's id, name and slug. -/
structure InvitationDetails where
  id : String
  email : String
  role : Role
  expiresAt : Nat
  acceptedAt : Option Nat
  workspaceId : String
  workspaceName : String
  workspaceSlug : String
deriving DecidableEq, Repr

/-- `invitations.getByToken` (public, read-only): inner-join
`workspaceInvitations` with `workspaces` on the workspace id, filter by
token, take the first row; expiry and acceptance are **not** checked.
The handler issues a single `select`, so the database is returned
unchanged. -/
def invitationsGetByToken (db : DB) (token : String) :
    Except TRPCError InvitationDetails × DB :=
  match ((db.workspaceInvitations.flatMap fun i =>
      (db.workspaces.filter fun x => x.id == i.workspaceId).map fun x =>
        (i, x)).filter fun p => p.1.token == token).head? with
  | some (i, x) =>
    (.ok { id := i.id, email := i.email, role := i.role,
           expiresAt := i.expiresAt, acceptedAt := i.acceptedAt,
           workspaceId := x.id, workspaceName := x.name,
           workspaceSlug := x.slug }, db)
  | none => (.error ⟨.NOT_FOUND, "Invitation not found"⟩, db)

/-! ## The workspace-mutation vocabulary and reachability

The mutations of claim C2: workspace creation plus the member and
invitation operations.  External outcomes (UUIDs, random suffixes,
provisioning and Stripe results, clock readings) are carried inside the
operation; the only assumption on them is that `crypto.randomUUID`
yields a workspace id not already in use (`opFresh`). -/

/-- One invocation of a workspace mutation, with the outcomes of its
external calls. -/
inductive CloudOp where
  | create (ctx : Ctx) (input : CreateWorkspaceInput) (suffixes : List String)
      (provision : ProvisionResult) (stripeCustomer : Option String)
      (workspaceId : String) (now : Nat)
  | updateRole (ctx : Ctx) (input : UpdateRoleInput) (now : Nat)
  | removeMember (ctx : Ctx) (workspaceId userId : String)
  | leave (ctx : Ctx) (workspaceId : String)
  | inviteCreate (ctx : Ctx) (input : CreateInvitationInput) (now : Nat)
      (newId token : String)
  | inviteAccept (ctx : Ctx) (token : String) (now : Nat)
  | inviteRevoke (ctx : Ctx) (workspaceId invitationId : String)

/-- Forget an operation's payload result, keeping the error or the
database it produced. -/
def liftOp {α : Type} : Except TRPCError α × DB → Except TRPCError DB
  | (.ok _, db') => .ok db'
  | (.error e, _) => .error e

/-- Run one operation against the database. -/
def applyOp (db : DB) : CloudOp → Except TRPCError DB
  | .create ctx input suffixes provision stripe wid now =>
    liftOp (workspacesCreate db ctx input suffixes provision stripe wid now)
  | .updateRole ctx input now => liftOp (membersUpdateRole db ctx input now)
  | .removeMember ctx wid uid => liftOp (membersRemove db ctx wid uid)
  | .leave ctx wid => liftOp (membersLeave db ctx wid)
  | .inviteCreate ctx input now newId token =>
    liftOp (invitationsCreate db ctx input now newId token)
  | .inviteAccept ctx token now => liftOp (invitationsAccept db ctx token now)
  | .inviteRevoke ctx wid iid => liftOp (invitationsRevoke db ctx wid iid)

/-- `crypto.randomUUID` freshness: a created workspace's id is not an
existing workspace id. -/
def opFresh (db : DB) : CloudOp → Prop
  | .create _ _ _ _ _ wid _ => ∀ w ∈ db.workspaces, w.id ≠ wid
  | _ => True

/-- Databases reachable from the empty database through successful
workspace mutations. -/
inductive Reachable : DB → Prop where
  | init : Reachable DB.empty
  | step {db db' : DB} (op : CloudOp) (h : Reachable db)
      (hfresh : opFresh db op) (hstep : applyOp db op = .ok db') :
      Reachable db'

/-- Number of `owner` membership rows of one workspace. -/
def ownerCount (db : DB) (workspaceId : String) : Nat :=
  db.workspaceMembers.countP fun m =>
    m.workspaceId == workspaceId && m.role == Role.owner

/-- The composite primary key of a membership row. -/
def memberKey (m : WorkspaceMember) : String × String :=
  (m.workspaceId, m.userId)

/-- The state invariant maintained by the workspace mutations:
every workspace has exactly one owner row, invitation roles are never
`owner`, membership and invitation rows reference existing workspaces,
and membership keys are unique. -/
structure Inv (db : DB) : Prop where
  oneOwner : ∀ w ∈ db.workspaces, ownerCount db w.id = 1
  invRoles : ∀ i ∈ db.workspaceInvitations, i.role ≠ Role.owner
  memberRef : ∀ m ∈ db.workspaceMembers,
    ∃ w ∈ db.workspaces, w.id = m.workspaceId
  invRef : ∀ i ∈ db.workspaceInvitations,
    ∃ w ∈ db.workspaces, w.id = i.workspaceId
  keyNodup : (db.workspaceMembers.map memberKey).Nodup

/-! ## Generic list lemmas for the invariant proofs -/

lemma countP_map_of_eq {α : Type} {l : List α} {f : α → α} {p : α → Bool}
    (h : ∀ a ∈ l, p (f a) = p a) : (l.map f).countP p = l.countP p := by
  rw [List.countP_map]
  exact List.countP_congr fun a ha => by
    simp only [Function.comp_apply, h a ha]

lemma countP_filter_of_imp {α : Type} {l : List α} {p q : α → Bool}
    (h : ∀ a ∈ l, p a = true → q a = true) :
    (l.filter q).countP p = l.countP p := by
  rw [List.countP_filter]
  exact List.countP_congr fun a ha => by
    constructor
    · intro hpq
      exact (Bool.and_eq_true _ _ |>.mp hpq).1
    · intro hp
      simp [hp, h a ha hp]

lemma mem_key_eq {l : List WorkspaceMember}
    (hnd : (l.map memberKey).Nodup) {a b : WorkspaceMember}
    (ha : a ∈ l) (hb : b ∈ l) (hk : memberKey a = memberKey b) : a = b :=
  List.inj_on_of_nodup_map hnd ha hb hk

/-- The membership predicate of `getWorkspaceMembership` holds exactly
on the rows with the given key. -/
lemma member_pred_iff {m : WorkspaceMember} {wid uid : String} :
    (m.workspaceId == wid && m.userId == uid) = true ↔
      memberKey m = (wid, uid) := by
  simp [memberKey, Prod.ext_iff]

/-- All rows matching the key of a found membership are that
membership. -/
lemma key_match_eq_found {db : DB} {wid uid : String} {tm : WorkspaceMember}
    (hnd : (db.workspaceMembers.map memberKey).Nodup)
    (htm : getWorkspaceMembership db wid uid = some tm) :
    ∀ m ∈ db.workspaceMembers,
      (m.workspaceId == wid && m.userId == uid) = true → m = tm := by
  intro m hm hkey
  have htm_mem := List.mem_of_find?_eq_some htm
  have htm_key := List.find?_some htm
  exact mem_key_eq hnd hm htm_mem
    (member_pred_iff.mp hkey |>.trans (member_pred_iff.mp htm_key).symm)

/-- A missing membership means no row has the key. -/
lemma no_key_of_none {db : DB} {wid uid : String}
    (h : getWorkspaceMembership db wid uid = none) :
    ∀ m ∈ db.workspaceMembers, memberKey m ≠ (wid, uid) := by
  intro m hm
  have := List.find?_eq_none.mp h m hm
  intro hk
  exact this (member_pred_iff.mpr hk)

lemma InputRole.toRole_ne_owner (r : InputRole) : r.toRole ≠ Role.owner := by
  cases r <;> simp [InputRole.toRole]


/-! ## Success-path characterizations of the mutations -/

lemma membersUpdateRole_ok {db : DB} {ctx : Ctx} {input : UpdateRoleInput}
    {now : Nat} {db' : DB}
    (h : membersUpdateRole db ctx input now = (.ok (), db')) :
    ∃ cm tm, getWorkspaceMembership db input.workspaceId ctx.userId = some cm ∧
      isAdminOrOwner cm.role = true ∧ (input.userId == ctx.userId) = false ∧
      getWorkspaceMembership db input.workspaceId input.userId = some tm ∧
      isOwner tm.role = false ∧
      db' = { db with workspaceMembers := db.workspaceMembers.map fun m =>
        if m.workspaceId == input.workspaceId && m.userId == input.userId then
          { m with role := input.role.toRole, updatedAt := now }
        else m } := by
  unfold membersUpdateRole at h
  cases hcm : getWorkspaceMembership db input.workspaceId ctx.userId with
  | none => simp [hcm] at h
  | some cm =>
    simp only [hcm] at h
    split at h
    · simp at h
    · next hAdm =>
      split at h
      · simp at h
      · next hSelf =>
        cases htm : getWorkspaceMembership db input.workspaceId input.userId with
        | none => simp [htm] at h
        | some tm =>
          simp only [htm] at h
          split at h
          · simp at h
          · next hOwn =>
            split at h
            · simp at h
            · simp only [Prod.mk.injEq] at h
              refine ⟨cm, tm, rfl, ?_, ?_, rfl, ?_, h.2.symm⟩
              · revert hAdm; simp
              · revert hSelf; simp
              · revert hOwn; simp

lemma membersRemove_ok {db : DB} {ctx : Ctx} {workspaceId userId : String}
    {db' : DB}
    (h : membersRemove db ctx workspaceId userId = (.ok (), db')) :
    ∃ cm tm, getWorkspaceMembership db workspaceId ctx.userId = some cm ∧
      isAdminOrOwner cm.role = true ∧ (userId == ctx.userId) = false ∧
      getWorkspaceMembership db workspaceId userId = some tm ∧
      isOwner tm.role = false ∧
      db' = { db with workspaceMembers := db.workspaceMembers.filter fun m =>
        !(m.workspaceId == workspaceId && m.userId == userId) } := by
  unfold membersRemove at h
  cases hcm : getWorkspaceMembership db workspaceId ctx.userId with
  | none => simp [hcm] at h
  | some cm =>
    simp only [hcm] at h
    split at h
    · simp at h
    · next hAdm =>
      split at h
      · simp at h
      · next hSelf =>
        cases htm : getWorkspaceMembership db workspaceId userId with
        | none => simp [htm] at h
        | some tm =>
          simp only [htm] at h
          split at h
          · simp at h
          · next hOwn =>
            split at h
            · simp at h
            · simp only [Prod.mk.injEq] at h
              refine ⟨cm, tm, rfl, ?_, ?_, rfl, ?_, h.2.symm⟩
              · revert hAdm; simp
              · revert hSelf; simp
              · revert hOwn; simp

lemma membersLeave_ok {db : DB} {ctx : Ctx} {workspaceId : String} {db' : DB}
    (h : membersLeave db ctx workspaceId = (.ok (), db')) :
    ∃ m, getWorkspaceMembership db workspaceId ctx.userId = some m ∧
      isOwner m.role = false ∧
      db' = { db with workspaceMembers := db.workspaceMembers.filter fun m =>
        !(m.workspaceId == workspaceId && m.userId == ctx.userId) } := by
  unfold membersLeave at h
  cases hm : getWorkspaceMembership db workspaceId ctx.userId with
  | none => simp [hm] at h
  | some m =>
    simp only [hm] at h
    split at h
    · simp at h
    · next hOwn =>
      simp only [Prod.mk.injEq] at h
      refine ⟨m, rfl, ?_, h.2.symm⟩
      revert hOwn; simp

lemma workspacesCreate_ok {db : DB} {ctx : Ctx} {input : CreateWorkspaceInput}
    {suffixes : List String} {provision : ProvisionResult}
    {stripeCustomer : Option String} {workspaceId : String} {now : Nat}
    {out : Workspace × Role} {db' : DB}
    (h : workspacesCreate db ctx input suffixes provision stripeCustomer
      workspaceId now = (.ok out, db')) :
    ∃ w : Workspace, w.id = workspaceId ∧
      db' = { db with
        workspaces := db.workspaces ++ [w]
        workspaceMembers := db.workspaceMembers ++
          [⟨workspaceId, ctx.userId, .owner, now, now⟩] } := by
  unfold workspacesCreate at h
  cases hslug : input.slug with
  | some s =>
    simp only [hslug] at h
    split at h
    · simp at h
    · split at h
      · simp at h
      · simp only [Prod.mk.injEq] at h
        exact ⟨_, rfl, h.2.symm⟩
  | none =>
    simp only [hslug] at h
    cases hg : generateUniqueSlug (fun s =>
        (db.workspaces.find? fun w => w.slug == s).isSome) input.name
        suffixes with
    | error e => simp [hg] at h
    | ok s =>
      simp only [hg] at h
      split at h
      · simp at h
      · split at h
        · simp at h
        · simp only [Prod.mk.injEq] at h
          exact ⟨_, rfl, h.2.symm⟩

lemma invitationsCreate_ok {db : DB} {ctx : Ctx}
    {input : CreateInvitationInput} {now : Nat} {newId token : String}
    {out : WorkspaceInvitation} {db' : DB}
    (h : invitationsCreate db ctx input now newId token = (.ok out, db')) :
    ∃ m, getWorkspaceMembership db input.workspaceId ctx.userId = some m ∧
      db' = { db with workspaceInvitations := db.workspaceInvitations ++
        [⟨newId, input.workspaceId, jsToLower input.email, input.role.toRole,
          token, ctx.userId, now + 7 * 24 * 60 * 60 * 1000, none, now⟩] } := by
  unfold invitationsCreate at h
  cases hm : getWorkspaceMembership db input.workspaceId ctx.userId with
  | none => simp [hm] at h
  | some m =>
    simp only [hm] at h
    split at h
    · simp at h
    · split at h
      · simp at h
      · split at h
        · simp at h
        · split at h
          · simp at h
          · simp only [Prod.mk.injEq] at h
            exact ⟨m, rfl, h.2.symm⟩

lemma invitationsRevoke_ok {db : DB} {ctx : Ctx}
    {workspaceId invitationId : String} {db' : DB}
    (h : invitationsRevoke db ctx workspaceId invitationId = (.ok (), db')) :
    db' = { db with workspaceInvitations :=
      db.workspaceInvitations.filter fun i => !(i.id == invitationId) } := by
  unfold invitationsRevoke at h
  cases hm : getWorkspaceMembership db workspaceId ctx.userId with
  | none => simp [hm] at h
  | some m =>
    simp only [hm] at h
    split at h
    · simp at h
    · split at h
      · simp at h
      · simp only [Prod.mk.injEq] at h
        exact h.2.symm

lemma invitationsAccept_ok {db : DB} {ctx : Ctx} {token : String} {now : Nat}
    {out : Option (String × String × String)} {db' : DB}
    (h : invitationsAccept db ctx token now = (.ok out, db')) :
    ∃ inv, (db.workspaceInvitations.find? fun i => i.token == token) =
        some inv ∧
      getWorkspaceMembership db inv.workspaceId ctx.userId = none ∧
      db' = { db with
        workspaceMembers := db.workspaceMembers ++
          [⟨inv.workspaceId, ctx.userId, inv.role, now, now⟩]
        workspaceInvitations := db.workspaceInvitations.map fun i =>
          if i.id == inv.id then { i with acceptedAt := some now } else i } := by
  unfold invitationsAccept at h
  cases hinv : db.workspaceInvitations.find? fun i => i.token == token with
  | none => simp [hinv] at h
  | some inv =>
    simp only [hinv] at h
    split at h
    · simp at h
    · split at h
      · simp at h
      · split at h
        · simp at h
        · split at h
          · next hmem => simp at h
          · next hmem =>
            simp only [Prod.mk.injEq] at h
            refine ⟨inv, rfl, ?_, h.2.symm⟩
            revert hmem
            cases getWorkspaceMembership db inv.workspaceId ctx.userId <;> simp

/-! ## Invariant preservation -/

lemma inv_updateRole {db db' : DB} {ctx : Ctx} {input : UpdateRoleInput}
    {now : Nat} (hInv : Inv db)
    (h : membersUpdateRole db ctx input now = (.ok (), db')) : Inv db' := by
  obtain ⟨cm, tm, hcm, hadm, hself, htm, hown, hdb⟩ := membersUpdateRole_ok h
  subst hdb
  have hkey := key_match_eq_found hInv.keyNodup htm
  have hrole_eq : ∀ m ∈ db.workspaceMembers, ∀ wid : String,
      ((if m.workspaceId == input.workspaceId && m.userId == input.userId then
          { m with role := input.role.toRole, updatedAt := now }
        else m).workspaceId == wid &&
       (if m.workspaceId == input.workspaceId && m.userId == input.userId then
          { m with role := input.role.toRole, updatedAt := now }
        else m).role == Role.owner) =
      (m.workspaceId == wid && m.role == Role.owner) := by
    intro m hm wid
    by_cases hk : (m.workspaceId == input.workspaceId &&
        m.userId == input.userId) = true
    · have hmtm := hkey m hm hk
      subst hmtm
      have h1 : (m.role == Role.owner) = false :=
        beq_eq_false_iff_ne.mpr (by revert hown; unfold isOwner; simp)
      have h2 : (input.role.toRole == Role.owner) = false :=
        beq_eq_false_iff_ne.mpr (InputRole.toRole_ne_owner _)
      simp [hk, h1, h2]
    · simp [hk]
  have hkey_pres : ∀ m ∈ db.workspaceMembers,
      memberKey (if m.workspaceId == input.workspaceId &&
          m.userId == input.userId then
        { m with role := input.role.toRole, updatedAt := now }
      else m) = memberKey m := by
    intro m _
    by_cases hk : (m.workspaceId == input.workspaceId &&
        m.userId == input.userId) = true <;> simp [hk, memberKey]
  constructor
  · intro w hw
    have := hInv.oneOwner w hw
    revert this
    unfold ownerCount
    simp only
    rw [countP_map_of_eq (fun m hm => hrole_eq m hm w.id)]
    exact id
  · exact hInv.invRoles
  · intro m hm
    simp only [List.mem_map] at hm
    obtain ⟨m0, hm0, hm0e⟩ := hm
    have := hInv.memberRef m0 hm0
    subst hm0e
    by_cases hk : (m0.workspaceId == input.workspaceId &&
        m0.userId == input.userId) = true <;> simpa [hk] using this
  · exact hInv.invRef
  · simp only [List.map_map, Function.comp_def]
    rw [List.map_congr_left fun m hm => hkey_pres m hm]
    exact hInv.keyNodup

/-- Deleting the rows of one non-owner membership key preserves the
invariant. -/
lemma inv_filter_key {db : DB} {wid uid : String} {tm : WorkspaceMember}
    (hInv : Inv db) (htm : getWorkspaceMembership db wid uid = some tm)
    (hown : isOwner tm.role = false) :
    Inv { db with workspaceMembers := db.workspaceMembers.filter fun m =>
      !(m.workspaceId == wid && m.userId == uid) } := by
  have hkey := key_match_eq_found hInv.keyNodup htm
  have htm_ne : tm.role ≠ Role.owner := by
    revert hown; unfold isOwner; simp
  constructor
  · intro w hw
    have := hInv.oneOwner w hw
    revert this
    unfold ownerCount
    simp only
    rw [countP_filter_of_imp]
    · exact id
    · intro m hm hp
      by_cases hk : (m.workspaceId == wid && m.userId == uid) = true
      · exfalso
        have := hkey m hm hk
        subst this
        have : (m.role == Role.owner) = true :=
          (Bool.and_eq_true _ _ |>.mp hp).2
        exact htm_ne (by simpa using this)
      · simp [hk]
  · exact hInv.invRoles
  · intro m hm
    exact hInv.memberRef m (List.mem_filter.mp hm).1
  · exact hInv.invRef
  · exact hInv.keyNodup.sublist ((List.filter_sublist _).map _)

lemma inv_remove {db db' : DB} {ctx : Ctx} {workspaceId userId : String}
    (hInv : Inv db)
    (h : membersRemove db ctx workspaceId userId = (.ok (), db')) :
    Inv db' := by
  obtain ⟨cm, tm, hcm, hadm, hself, htm, hown, hdb⟩ := membersRemove_ok h
  subst hdb
  exact inv_filter_key hInv htm hown

lemma inv_leave {db db' : DB} {ctx : Ctx} {workspaceId : String}
    (hInv : Inv db)
    (h : membersLeave db ctx workspaceId = (.ok (), db')) : Inv db' := by
  obtain ⟨m, hm, hown, hdb⟩ := membersLeave_ok h
  subst hdb
  exact inv_filter_key hInv hm hown

lemma inv_create {db db' : DB} {ctx : Ctx} {input : CreateWorkspaceInput}
    {suffixes : List String} {provision : ProvisionResult}
    {stripeCustomer : Option String} {workspaceId : String} {now : Nat}
    {out : Workspace × Role} (hInv : Inv db)
    (hfresh : ∀ w ∈ db.workspaces, w.id ≠ workspaceId)
    (h : workspacesCreate db ctx input suffixes provision stripeCustomer
      workspaceId now = (.ok out, db')) : Inv db' := by
  obtain ⟨w, hwid, hdb⟩ := workspacesCreate_ok h
  subst hdb
  have hnomem : ∀ m ∈ db.workspaceMembers, m.workspaceId ≠ workspaceId := by
    intro m hm
    obtain ⟨w0, hw0, hw0id⟩ := hInv.memberRef m hm
    rw [← hw0id]
    exact hfresh w0 hw0
  constructor
  · intro w' hw'
    unfold ownerCount
    simp only [List.countP_append]
    rcases List.mem_append.mp hw' with hw' | hw'
    · have hne : w'.id ≠ workspaceId := hfresh w' hw'
      have : List.countP (fun m =>
          m.workspaceId == w'.id && m.role == Role.owner)
          [(⟨workspaceId, ctx.userId, .owner, now, now⟩ : WorkspaceMember)]
          = 0 := by
        simp [beq_eq_false_iff_ne.mpr (Ne.symm hne)]
      rw [this, Nat.add_zero]
      exact hInv.oneOwner w' hw'
    · simp only [List.mem_singleton] at hw'
      subst hw'
      rw [hwid]
      have h0 : List.countP (fun m =>
          m.workspaceId == workspaceId && m.role == Role.owner)
          db.workspaceMembers = 0 := by
        rw [List.countP_eq_zero]
        intro m hm
        simp [beq_eq_false_iff_ne.mpr (hnomem m hm)]
      rw [h0]
      simp
  · exact hInv.invRoles
  · intro m hm
    rcases List.mem_append.mp hm with hm | hm
    · obtain ⟨w0, hw0, hw0id⟩ := hInv.memberRef m hm
      exact ⟨w0, List.mem_append.mpr (Or.inl hw0), hw0id⟩
    · simp only [List.mem_singleton] at hm
      subst hm
      exact ⟨w, List.mem_append.mpr (Or.inr (List.mem_singleton.mpr rfl)),
        hwid⟩
  · intro i hi
    obtain ⟨w0, hw0, hw0id⟩ := hInv.invRef i hi
    exact ⟨w0, List.mem_append.mpr (Or.inl hw0), hw0id⟩
  · simp only [List.map_append]
    rw [List.nodup_append]
    refine ⟨hInv.keyNodup, List.nodup_singleton _, ?_⟩
    intro k hk hk'
    simp only [List.mem_map] at hk
    obtain ⟨m, hm, hmk⟩ := hk
    simp only [List.map_cons, List.map_nil, List.mem_singleton] at hk'
    rw [hk'] at hmk
    have : m.workspaceId = workspaceId := congrArg Prod.fst hmk
    exact hnomem m hm this

lemma inv_inviteCreate {db db' : DB} {ctx : Ctx}
    {input : CreateInvitationInput} {now : Nat} {newId token : String}
    {out : WorkspaceInvitation} (hInv : Inv db)
    (h : invitationsCreate db ctx input now newId token = (.ok out, db')) :
    Inv db' := by
  obtain ⟨m, hm, hdb⟩ := invitationsCreate_ok h
  subst hdb
  have hmwid : m.workspaceId = input.workspaceId := by
    have := List.find?_some hm
    have := (Bool.and_eq_true _ _ |>.mp this).1
    simpa using this
  constructor
  · exact hInv.oneOwner
  · intro i hi
    rcases List.mem_append.mp hi with hi | hi
    · exact hInv.invRoles i hi
    · simp only [List.mem_singleton] at hi
      subst hi
      exact InputRole.toRole_ne_owner _
  · exact hInv.memberRef
  · intro i hi
    rcases List.mem_append.mp hi with hi | hi
    · exact hInv.invRef i hi
    · simp only [List.mem_singleton] at hi
      subst hi
      obtain ⟨w0, hw0, hw0id⟩ :=
        hInv.memberRef m (List.mem_of_find?_eq_some hm)
      exact ⟨w0, hw0, by rw [hw0id, hmwid]⟩
  · exact hInv.keyNodup

lemma inv_inviteRevoke {db db' : DB} {ctx : Ctx}
    {workspaceId invitationId : String} (hInv : Inv db)
    (h : invitationsRevoke db ctx workspaceId invitationId = (.ok (), db')) :
    Inv db' := by
  have hdb := invitationsRevoke_ok h
  subst hdb
  constructor
  · exact hInv.oneOwner
  · intro i hi
    exact hInv.invRoles i (List.mem_filter.mp hi).1
  · exact hInv.memberRef
  · intro i hi
    exact hInv.invRef i (List.mem_filter.mp hi).1
  · exact hInv.keyNodup

lemma inv_inviteAccept {db db' : DB} {ctx : Ctx} {token : String} {now : Nat}
    {out : Option (String × String × String)} (hInv : Inv db)
    (h : invitationsAccept db ctx token now = (.ok out, db')) : Inv db' := by
  obtain ⟨inv, hinv, hnomem, hdb⟩ := invitationsAccept_ok h
  subst hdb
  have hinv_mem := List.mem_of_find?_eq_some hinv
  have hrole : inv.role ≠ Role.owner := hInv.invRoles inv hinv_mem
  constructor
  · intro w hw
    unfold ownerCount
    simp only [List.countP_append]
    have : List.countP (fun m => m.workspaceId == w.id &&
        m.role == Role.owner)
        [(⟨inv.workspaceId, ctx.userId, inv.role, now, now⟩ :
          WorkspaceMember)] = 0 := by
      simp [beq_eq_false_iff_ne.mpr hrole]
    rw [this, Nat.add_zero]
    exact hInv.oneOwner w hw
  · intro i hi
    simp only [List.mem_map] at hi
    obtain ⟨i0, hi0, hi0e⟩ := hi
    have := hInv.invRoles i0 hi0
    subst hi0e
    by_cases hk : (i0.id == inv.id) = true <;> simpa [hk] using this
  · intro m hm
    rcases List.mem_append.mp hm with hm | hm
    · exact hInv.memberRef m hm
    · simp only [List.mem_singleton] at hm
      subst hm
      exact hInv.invRef inv hinv_mem
  · intro i hi
    simp only [List.mem_map] at hi
    obtain ⟨i0, hi0, hi0e⟩ := hi
    have := hInv.invRef i0 hi0
    subst hi0e
    by_cases hk : (i0.id == inv.id) = true <;> simpa [hk] using this
  · simp only [List.map_append]
    rw [List.nodup_append]
    refine ⟨hInv.keyNodup, List.nodup_singleton _, ?_⟩
    intro k hk hk'
    simp only [List.mem_map] at hk
    obtain ⟨m, hm, hmk⟩ := hk
    simp only [List.map_cons, List.map_nil, List.mem_singleton] at hk'
    rw [hk'] at hmk
    exact no_key_of_none hnomem m hm (by simpa [memberKey] using hmk)

lemma liftOp_ok {α : Type} {r : Except TRPCError α × DB} {db' : DB}
    (h : liftOp r = .ok db') : ∃ a, r = (.ok a, db') := by
  obtain ⟨res, d⟩ := r
  cases res with
  | ok a =>
    simp only [liftOp] at h
    cases h
    exact ⟨a, rfl⟩
  | error e => simp [liftOp] at h

lemma inv_empty : Inv DB.empty := by
  constructor <;> simp [DB.empty, ownerCount]

/-- Every reachable database satisfies the one-owner invariant. -/
lemma reachable_inv {db : DB} (h : Reachable db) : Inv db := by
  induction h with
  | init => exact inv_empty
  | step op hr hfresh hstep ih =>
    cases op with
    | create ctx input suffixes provision stripe wid now =>
      simp only [applyOp] at hstep
      obtain ⟨a, ha⟩ := liftOp_ok hstep
      exact inv_create ih hfresh ha
    | updateRole ctx input now =>
      simp only [applyOp] at hstep
      obtain ⟨⟨⟩, ha⟩ := liftOp_ok hstep
      exact inv_updateRole ih ha
    | removeMember ctx wid uid =>
      simp only [applyOp] at hstep
      obtain ⟨⟨⟩, ha⟩ := liftOp_ok hstep
      exact inv_remove ih ha
    | leave ctx wid =>
      simp only [applyOp] at hstep
      obtain ⟨⟨⟩, ha⟩ := liftOp_ok hstep
      exact inv_leave ih ha
    | inviteCreate ctx input now newId token =>
      simp only [applyOp] at hstep
      obtain ⟨a, ha⟩ := liftOp_ok hstep
      exact inv_inviteCreate ih ha
    | inviteAccept ctx token now =>
      simp only [applyOp] at hstep
      obtain ⟨a, ha⟩ := liftOp_ok hstep
      exact inv_inviteAccept ih ha
    | inviteRevoke ctx wid iid =>
      simp only [applyOp] at hstep
      obtain ⟨⟨⟩, ha⟩ := liftOp_ok hstep
      exact inv_inviteRevoke ih ha

/-- No successful mutation removes or re-roles an owner membership
row. -/
lemma owner_row_preserved {db db' : DB} (hInv : Inv db) (op : CloudOp)
    (hstep : applyOp db op = .ok db') :
    ∀ m ∈ db.workspaceMembers, m.role = Role.owner →
      m ∈ db'.workspaceMembers := by
  cases op with
  | create ctx input suffixes provision stripe wid now =>
    simp only [applyOp] at hstep
    obtain ⟨a, ha⟩ := liftOp_ok hstep
    obtain ⟨w, hwid, hdb⟩ := workspacesCreate_ok ha
    subst hdb
    intro m hm _
    exact List.mem_append.mpr (Or.inl hm)
  | updateRole ctx input now =>
    simp only [applyOp] at hstep
    obtain ⟨⟨⟩, ha⟩ := liftOp_ok hstep
    obtain ⟨cm, tm, hcm, hadm, hself, htm, hown, hdb⟩ :=
      membersUpdateRole_ok ha
    subst hdb
    intro m hm howner
    have hkey := key_match_eq_found hInv.keyNodup htm
    by_cases hk : (m.workspaceId == input.workspaceId &&
        m.userId == input.userId) = true
    · exfalso
      have := hkey m hm hk
      subst this
      revert hown
      unfold isOwner
      simp [howner]
    · exact List.mem_map.mpr ⟨m, hm, by simp [hk]⟩
  | removeMember ctx wid uid =>
    simp only [applyOp] at hstep
    obtain ⟨⟨⟩, ha⟩ := liftOp_ok hstep
    obtain ⟨cm, tm, hcm, hadm, hself, htm, hown, hdb⟩ := membersRemove_ok ha
    subst hdb
    intro m hm howner
    have hkey := key_match_eq_found hInv.keyNodup htm
    refine List.mem_filter.mpr ⟨hm, ?_⟩
    by_cases hk : (m.workspaceId == wid && m.userId == uid) = true
    · exfalso
      have := hkey m hm hk
      subst this
      revert hown
      unfold isOwner
      simp [howner]
    · simp [hk]
  | leave ctx wid =>
    simp only [applyOp] at hstep
    obtain ⟨⟨⟩, ha⟩ := liftOp_ok hstep
    obtain ⟨m0, hm0, hown, hdb⟩ := membersLeave_ok ha
    subst hdb
    intro m hm howner
    have hkey := key_match_eq_found hInv.keyNodup hm0
    refine List.mem_filter.mpr ⟨hm, ?_⟩
    by_cases hk : (m.workspaceId == wid && m.userId == ctx.userId) = true
    · exfalso
      have := hkey m hm hk
      subst this
      revert hown
      unfold isOwner
      simp [howner]
    · simp [hk]
  | inviteCreate ctx input now newId token =>
    simp only [applyOp] at hstep
    obtain ⟨a, ha⟩ := liftOp_ok hstep
    obtain ⟨m0, hm0, hdb⟩ := invitationsCreate_ok ha
    subst hdb
    intro m hm _
    exact hm
  | inviteAccept ctx token now =>
    simp only [applyOp] at hstep
    obtain ⟨a, ha⟩ := liftOp_ok hstep
    obtain ⟨inv, hinv, hnomem, hdb⟩ := invitationsAccept_ok ha
    subst hdb
    intro m hm _
    exact List.mem_append.mpr (Or.inl hm)
  | inviteRevoke ctx wid iid =>
    simp only [applyOp] at hstep
    obtain ⟨⟨⟩, ha⟩ := liftOp_ok hstep
    have hdb := invitationsRevoke_ok ha
    subst hdb
    intro m hm _
    exact hm

/-! ## Claim theorems -/

/-- **C2.** Every workspace that exists has exactly one `owner` member
at every reachable database: `workspaces.create` inserts exactly one
owner membership, and no reachable sequence of `members.updateRole`,
`members.remove`, `members.leave` or invitation operations can change
the owner's role, remove the owner, let the owner leave, or create a
second owner (the role inputs of `updateRole` and invitation creation
exclude `owner`).  The first conjunct gives one owner per existing
workspace in every reachable state; the second says a successful
mutation never deletes or alters an owner membership row. -/
theorem uniqueOwnerInvariant :
    (∀ db, Reachable db → ∀ w ∈ db.workspaces, ownerCount db w.id = 1) ∧
    (∀ db op db', Reachable db → opFresh db op → applyOp db op = .ok db' →
      ∀ m ∈ db.workspaceMembers, m.role = Role.owner →
        m ∈ db'.workspaceMembers) := by
  constructor
  · intro db h
    exact (reachable_inv h).oneOwner
  · intro db op db' hr _ hstep
    exact owner_row_preserved (reachable_inv hr) op hstep

/-- Context, operations and databases of the concrete one-owner
scenario: create workspace `w1`, then invite an editor. -/
def ctxOwnerW : Ctx := ⟨"u1", "alice@example.com"⟩

def opOwnerW1 : CloudOp :=
  .create ctxOwnerW ⟨"Acme", some "acme", false⟩ []
    ⟨true, none, some "np", some "cs", none⟩ none "w1" 0

def opOwnerW2 : CloudOp :=
  .inviteCreate ctxOwnerW ⟨"w1", "bob@example.com", .editor⟩ 1 "i1" "tk1"

def wRowW : Workspace :=
  ⟨"w1", "Acme", "acme", "free", some "np", some "cs", none, none, false,
   0, 0⟩

def mRowW : WorkspaceMember := ⟨"w1", "u1", .owner, 0, 0⟩

def dbOwnerW1 : DB := ⟨[wRowW], [mRowW], [], []⟩

def dbOwnerW2 : DB :=
  ⟨[wRowW], [mRowW],
   [⟨"i1", "w1", "bob@example.com", .editor, "tk1", "u1",
     1 + 7 * 24 * 60 * 60 * 1000, none, 1⟩], []⟩

theorem uniqueOwnerInvariant_witness :
    ownerCount dbOwnerW1 "w1" = 1 ∧ mRowW ∈ dbOwnerW2.workspaceMembers := by
  have hreach : Reachable dbOwnerW1 :=
    Reachable.step opOwnerW1 Reachable.init
      (by intro w hw; simp [DB.empty] at hw) (by rfl)
  constructor
  · have h := uniqueOwnerInvariant.1 dbOwnerW1 hreach wRowW
      (by simp [dbOwnerW1])
    simpa [wRowW] using h
  · exact uniqueOwnerInvariant.2 dbOwnerW1 opOwnerW2 dbOwnerW2 hreach
      trivial (by rfl) mRowW (by simp [dbOwnerW1]) rfl

/-- **C1 (counterexample).** The claim "if the acting member's role is
`admin`, `members.updateRole` with target role `admin` always fails
with a FORBIDDEN error" is false: an admin (`bob`) submitting
`updateRole` with target role `admin` and themselves as target is
rejected by the earlier self-change guard with BAD_REQUEST, not
FORBIDDEN. -/
theorem adminAssign_counterexample :
    (getWorkspaceMembership
        ⟨[], [⟨"w1", "alice", .owner, 0, 0⟩, ⟨"w1", "bob", .admin, 0, 0⟩],
         [], []⟩ "w1" "bob").map (fun m => m.role) = some Role.admin ∧
    (membersUpdateRole
        ⟨[], [⟨"w1", "alice", .owner, 0, 0⟩, ⟨"w1", "bob", .admin, 0, 0⟩],
         [], []⟩ ⟨"bob", "bob@example.com"⟩ ⟨"w1", "bob", .admin⟩ 5).1 =
      .error ⟨.BAD_REQUEST, "You cannot change your own role"⟩ ∧
    ErrCode.BAD_REQUEST ≠ ErrCode.FORBIDDEN := by
  refine ⟨rfl, rfl, by simp⟩

/-- **C1 (amended).** Admin-assigning mutations: (1) an acting admin
calling `members.updateRole` with target role `admin` always fails —
with FORBIDDEN unless the request targets the actor themselves
(BAD_REQUEST) or a non-member (NOT_FOUND); (2) an acting admin calling
`invitations.create` with invited role `admin` always fails with
FORBIDDEN; (3) an acting owner's `updateRole` succeeds whenever no
other rejection condition holds (target is another, existing,
non-owner member); (4) an acting owner's `invitations.create` succeeds
whenever no other rejection condition holds (the email has no
membership and no invitation row). -/
theorem adminAssignmentMatrix :
    (∀ db ctx (input : UpdateRoleInput) now cm,
      getWorkspaceMembership db input.workspaceId ctx.userId = some cm →
      cm.role = Role.admin → input.role = InputRole.admin →
      ∃ e, membersUpdateRole db ctx input now = (.error e, db) ∧
        (e.code = .FORBIDDEN ∨
         (e.code = .BAD_REQUEST ∧ input.userId = ctx.userId) ∨
         (e.code = .NOT_FOUND ∧
          getWorkspaceMembership db input.workspaceId input.userId =
            none))) ∧
    (∀ db ctx (input : CreateInvitationInput) now newId token m,
      getWorkspaceMembership db input.workspaceId ctx.userId = some m →
      m.role = Role.admin → input.role = InputRole.admin →
      invitationsCreate db ctx input now newId token =
        (.error ⟨.FORBIDDEN, "Only owners can invite admins"⟩, db)) ∧
    (∀ db ctx (input : UpdateRoleInput) now cm tm,
      getWorkspaceMembership db input.workspaceId ctx.userId = some cm →
      cm.role = Role.owner → input.userId ≠ ctx.userId →
      getWorkspaceMembership db input.workspaceId input.userId = some tm →
      tm.role ≠ Role.owner →
      ∃ db', membersUpdateRole db ctx input now = (.ok (), db')) ∧
    (∀ db ctx (input : CreateInvitationInput) now newId token m,
      getWorkspaceMembership db input.workspaceId ctx.userId = some m →
      m.role = Role.owner →
      emailHasMembership db input.workspaceId (jsToLower input.email) =
        false →
      (db.workspaceInvitations.find? fun i =>
        i.workspaceId == input.workspaceId &&
        i.email == jsToLower input.email) = none →
      ∃ inv db', invitationsCreate db ctx input now newId token =
        (.ok inv, db')) := by
  refine ⟨?_, ?_, ?_, ?_⟩
  · intro db ctx input now cm hcm hrole hirole
    have hadm : isAdminOrOwner cm.role = true := by
      unfold isAdminOrOwner; rw [hrole]; rfl
    unfold membersUpdateRole
    simp only [hcm, hadm, Bool.not_true, Bool.false_eq_true, if_false]
    by_cases hself : (input.userId == ctx.userId) = true
    · simp only [hself, if_true]
      exact ⟨_, rfl, Or.inr (Or.inl ⟨rfl, by simpa using hself⟩)⟩
    · rw [Bool.not_eq_true] at hself
      simp only [hself, Bool.false_eq_true, if_false]
      cases htm : getWorkspaceMembership db input.workspaceId input.userId with
      | none => exact ⟨_, rfl, Or.inr (Or.inr ⟨rfl, rfl⟩)⟩
      | some tm =>
        simp only [htm]
        by_cases hown : isOwner tm.role = true
        · simp only [hown, if_true]
          exact ⟨_, rfl, Or.inl rfl⟩
        · rw [Bool.not_eq_true] at hown
          simp only [hown, Bool.false_eq_true, if_false]
          have hpromote : (cm.role == Role.admin &&
              input.role == InputRole.admin) = true := by
            rw [hrole, hirole]; rfl
          simp only [hpromote, if_true]
          exact ⟨_, rfl, Or.inl rfl⟩
  · intro db ctx input now newId token m hm hrole hirole
    have hadm : isAdminOrOwner m.role = true := by
      unfold isAdminOrOwner; rw [hrole]; rfl
    have hpromote : (m.role == Role.admin && input.role == InputRole.admin) =
        true := by rw [hrole, hirole]; rfl
    unfold invitationsCreate
    simp only [hm, hadm, hpromote, Bool.not_true, Bool.false_eq_true,
      if_false, if_true]
  · intro db ctx input now cm tm hcm hrole hself htm hown
    have hadm : isAdminOrOwner cm.role = true := by
      unfold isAdminOrOwner; rw [hrole]; rfl
    have hs : (input.userId == ctx.userId) = false :=
      beq_eq_false_iff_ne.mpr hself
    have ho : isOwner tm.role = false := by
      unfold isOwner; exact beq_eq_false_iff_ne.mpr hown
    have hc : (cm.role == Role.admin) = false := by rw [hrole]; rfl
    unfold membersUpdateRole
    simp only [hcm, hadm, hs, htm, ho, hc, Bool.not_true, Bool.false_eq_true,
      Bool.false_and, if_false]
    exact ⟨_, rfl⟩
  · intro db ctx input now newId token m hm hrole hnomem hnoinv
    have hadm : isAdminOrOwner m.role = true := by
      unfold isAdminOrOwner; rw [hrole]; rfl
    have hc : (m.role == Role.admin) = false := by rw [hrole]; rfl
    unfold invitationsCreate
    simp only [hm, hadm, hc, hnomem, hnoinv, Option.isSome_none,
      Bool.not_true, Bool.false_eq_true, Bool.false_and, if_false]
    exact ⟨_, _, rfl⟩

theorem adminAssignmentMatrix_witness :
    (∃ e, membersUpdateRole
        ⟨[], [⟨"w1", "alice", .owner, 0, 0⟩, ⟨"w1", "bob", .admin, 0, 0⟩,
              ⟨"w1", "carol", .editor, 0, 0⟩], [], []⟩
        ⟨"bob", "bob@example.com"⟩ ⟨"w1", "carol", .admin⟩ 5 =
        (.error e,
         ⟨[], [⟨"w1", "alice", .owner, 0, 0⟩, ⟨"w1", "bob", .admin, 0, 0⟩,
              ⟨"w1", "carol", .editor, 0, 0⟩], [], []⟩) ∧
      (e.code = .FORBIDDEN ∨
       (e.code = .BAD_REQUEST ∧ "carol" = "bob") ∨
       (e.code = .NOT_FOUND ∧
        getWorkspaceMembership
          ⟨[], [⟨"w1", "alice", .owner, 0, 0⟩, ⟨"w1", "bob", .admin, 0, 0⟩,
               ⟨"w1", "carol", .editor, 0, 0⟩], [], []⟩ "w1" "carol" =
          none))) ∧
    invitationsCreate
        ⟨[], [⟨"w1", "alice", .owner, 0, 0⟩, ⟨"w1", "bob", .admin, 0, 0⟩],
         [], []⟩
        ⟨"bob", "bob@example.com"⟩ ⟨"w1", "dan@example.com", .admin⟩ 5
        "i9" "tk9" =
      (.error ⟨.FORBIDDEN, "Only owners can invite admins"⟩,
       ⟨[], [⟨"w1", "alice", .owner, 0, 0⟩, ⟨"w1", "bob", .admin, 0, 0⟩],
        [], []⟩) ∧
    (∃ db', membersUpdateRole
        ⟨[], [⟨"w1", "alice", .owner, 0, 0⟩, ⟨"w1", "bob", .admin, 0, 0⟩],
         [], []⟩
        ⟨"alice", "alice@example.com"⟩ ⟨"w1", "bob", .admin⟩ 5 =
        (.ok (), db')) ∧
    (∃ inv db', invitationsCreate
        ⟨[], [⟨"w1", "alice", .owner, 0, 0⟩], [], []⟩
        ⟨"alice", "alice@example.com"⟩ ⟨"w1", "dan@example.com", .admin⟩ 5
        "i9" "tk9" = (.ok inv, db')) := by
  refine ⟨?_, ?_, ?_, ?_⟩
  · exact adminAssignmentMatrix.1 _ _ _ 5 _ rfl rfl rfl
  · exact adminAssignmentMatrix.2.1 _ _ _ 5 "i9" "tk9" _ rfl rfl rfl
  · exact adminAssignmentMatrix.2.2.1 _ _ _ 5 _ _ rfl rfl
      (by simp) rfl (by simp)
  · exact adminAssignmentMatrix.2.2.2 _ _ _ 5 "i9" "tk9" _ rfl rfl rfl rfl

/-- The rejection condition of `invitations.accept`: the token matches
no invitation, or the invitation is expired, already accepted, sent to
a different email (case-insensitively), or the acceptor is already a
member. -/
def acceptRejects (db : DB) (ctx : Ctx) (token : String) (now : Nat) :
    Prop :=
  match db.workspaceInvitations.find? fun i => i.token == token with
  | none => True
  | some invitation =>
    invitation.expiresAt < now ∨ invitation.acceptedAt.isSome = true ∨
    jsToLower invitation.email ≠ jsToLower ctx.userEmail ∨
    (getWorkspaceMembership db invitation.workspaceId ctx.userId).isSome =
      true

/-- **C3.** `invitations.accept` fails exactly when the token matches
no invitation, the invitation is expired, already accepted, addressed
to a different email (case-insensitively), or the acceptor is already
a member; every failure leaves the database unchanged; and success
appends a membership row whose `createdAt` equals the timestamp written
into the invitation's `acceptedAt` — the same `now`. -/
theorem invitationAcceptContract :
    ∀ db ctx token now,
      ((∃ e, (invitationsAccept db ctx token now).1 = .error e) ↔
        acceptRejects db ctx token now) ∧
      (∀ e, (invitationsAccept db ctx token now).1 = .error e →
        (invitationsAccept db ctx token now).2 = db) ∧
      (∀ out, (invitationsAccept db ctx token now).1 = .ok out →
        ∃ inv,
          (db.workspaceInvitations.find? fun i => i.token == token) =
            some inv ∧
          (invitationsAccept db ctx token now).2 = { db with
            workspaceMembers := db.workspaceMembers ++
              [⟨inv.workspaceId, ctx.userId, inv.role, now, now⟩]
            workspaceInvitations := db.workspaceInvitations.map fun i =>
              if i.id == inv.id then { i with acceptedAt := some now }
              else i }) := by
  intro db ctx token now
  unfold invitationsAccept acceptRejects
  cases hinv : db.workspaceInvitations.find? fun i => i.token == token with
  | none =>
    simp only [hinv]
    exact ⟨⟨fun _ => trivial, fun _ => ⟨_, rfl⟩⟩, fun e _ => by trivial,
      fun out hout => by simp at hout⟩
  | some inv =>
    simp only [hinv]
    by_cases hexp : inv.expiresAt < now
    · rw [if_pos hexp]
      exact ⟨⟨fun _ => Or.inl hexp, fun _ => ⟨_, rfl⟩⟩, fun e _ => by trivial,
        fun out hout => by simp at hout⟩
    · rw [if_neg hexp]
      by_cases hacc : inv.acceptedAt.isSome = true
      · rw [if_pos hacc]
        exact ⟨⟨fun _ => Or.inr (Or.inl hacc), fun _ => ⟨_, rfl⟩⟩,
          fun e _ => by trivial, fun out hout => by simp at hout⟩
      · rw [if_neg hacc]
        by_cases hmail : (jsToLower inv.email != jsToLower ctx.userEmail) =
            true
        · rw [if_pos hmail]
          exact ⟨⟨fun _ => Or.inr (Or.inr (Or.inl (by simpa using hmail))),
            fun _ => ⟨_, rfl⟩⟩, fun e _ => by trivial,
            fun out hout => by simp at hout⟩
        · rw [if_neg hmail]
          have hmail' : jsToLower inv.email = jsToLower ctx.userEmail := by
            simpa using hmail
          by_cases hmem : (getWorkspaceMembership db inv.workspaceId
              ctx.userId).isSome = true
          · rw [if_pos hmem]
            exact ⟨⟨fun _ => Or.inr (Or.inr (Or.inr hmem)),
              fun _ => ⟨_, rfl⟩⟩, fun e _ => by trivial,
              fun out hout => by simp at hout⟩
          · rw [if_neg hmem]
            refine ⟨⟨fun he => ?_, fun hr => ?_⟩, fun e he => ?_,
              fun out _ => ⟨inv, rfl, rfl⟩⟩
            · obtain ⟨e, he⟩ := he
              simp at he
            · rcases hr with hr | hr | hr | hr
              · exact absurd hr hexp
              · exact absurd hr hacc
              · exact absurd hmail' hr
              · exact absurd hr hmem
            · simp at he

theorem invitationAcceptContract_witness :
    (invitationsAccept
        ⟨[⟨"w1", "Acme", "acme", "free", none, none, none, none, false,
           0, 0⟩],
         [⟨"w1", "alice", .owner, 0, 0⟩],
         [⟨"i1", "w1", "bob@example.com", .editor, "tok1", "alice",
           1000, none, 0⟩],
         []⟩
        ⟨"bob", "Bob@Example.com"⟩ "tok1" 500).2 =
      ⟨[⟨"w1", "Acme", "acme", "free", none, none, none, none, false,
         0, 0⟩],
       [⟨"w1", "alice", .owner, 0, 0⟩, ⟨"w1", "bob", .editor, 500, 500⟩],
       [⟨"i1", "w1", "bob@example.com", .editor, "tok1", "alice",
         1000, some 500, 0⟩],
       []⟩ := by
  obtain ⟨inv, hfind, hdb⟩ :=
    (invitationAcceptContract
      ⟨[⟨"w1", "Acme", "acme", "free", none, none, none, none, false,
         0, 0⟩],
       [⟨"w1", "alice", .owner, 0, 0⟩],
       [⟨"i1", "w1", "bob@example.com", .editor, "tok1", "alice",
         1000, none, 0⟩],
       []⟩
      ⟨"bob", "Bob@Example.com"⟩ "tok1" 500).2.2 _ rfl
  rw [hdb]
  cases hfind
  rfl

/-! ## Slug-validation lemmas -/

lemma slugTail_last {l : List Char} (h : slugTailMatch l = true) :
    ∃ c, l.getLast? = some c ∧ isLowerAlnum c = true := by
  induction l with
  | nil => simp [slugTailMatch] at h
  | cons c rest ih =>
    cases rest with
    | nil => exact ⟨c, rfl, by simpa [slugTailMatch] using h⟩
    | cons d tail =>
      unfold slugTailMatch at h
      have h2 := (Bool.and_eq_true _ _ |>.mp h).2
      obtain ⟨e, he, halnum⟩ := ih h2
      exact ⟨e, by simpa [List.getLast?_cons_cons] using he, halnum⟩

lemma matchesSlugPattern_head {s : String} (h : matchesSlugPattern s = true) :
    ∃ c, s.data.head? = some c ∧ isLowerAlpha c = true := by
  unfold matchesSlugPattern at h
  cases hd : s.data with
  | nil => rw [hd] at h; simp at h
  | cons c rest =>
    rw [hd] at h
    exact ⟨c, rfl, (Bool.and_eq_true _ _ |>.mp h).1⟩

lemma matchesSlugPattern_last {s : String} (h : matchesSlugPattern s = true) :
    ∃ c, s.data.getLast? = some c ∧ isLowerAlnum c = true := by
  unfold matchesSlugPattern at h
  cases hd : s.data with
  | nil => rw [hd] at h; simp at h
  | cons c rest =>
    rw [hd] at h
    have h2 := (Bool.and_eq_true _ _ |>.mp h).2
    cases rest with
    | nil => simp [slugTailMatch] at h2
    | cons d tail =>
      obtain ⟨e, he, halnum⟩ := slugTail_last h2
      exact ⟨e, by simpa [List.getLast?_cons_cons] using he, halnum⟩

lemma isLowerAlpha_isLower {c : Char} (h : isLowerAlpha c = true) :
    c.isLower = true := by
  unfold isLowerAlpha at h
  unfold Char.isLower
  simp only [Bool.and_eq_true, decide_eq_true_eq] at h ⊢
  exact h

lemma isLowerAlnum_alpha_or_digit {c : Char} (h : isLowerAlnum c = true) :
    c.isAlpha = true ∨ c.isDigit = true := by
  unfold isLowerAlnum at h
  rcases Bool.or_eq_true _ _ |>.mp h with h | h
  · left
    unfold isLowerAlpha at h
    unfold Char.isAlpha Char.isLower Char.isUpper
    simp only [Bool.and_eq_true, Bool.or_eq_true, decide_eq_true_eq] at h ⊢
    exact Or.inr h
  · right
    unfold isDigitChar at h
    unfold Char.isDigit
    simp only [Bool.and_eq_true, decide_eq_true_eq] at h ⊢
    exact h

/-- **C4 (counterexample).** The claim "slug validation accepts exactly
when … the string is not in the reserved-slug set" is false for the
cited validator `isValidWorkspaceSlug`: it performs no reserved-set
check, so the reserved slug `"api"` — which the claim requires to be
rejected — is accepted.  (The zod `createWorkspaceSchema` does reject
it.) -/
theorem slugValidation_counterexample :
    isValidWorkspaceSlug "api" = true ∧ "api" ∈ RESERVED_SLUGS ∧
      createWorkspaceSlugValid "api" = false := by
  refine ⟨rfl, by simp [RESERVED_SLUGS], rfl⟩

/-- **C4 (amended).** The `createWorkspaceSchema` slug validator
accepts exactly when: length in `[3,50]`, the first character is a
lowercase letter, the last character is a letter or digit, there are no
consecutive hyphens, the whole string matches
`^[a-z][a-z0-9-]*[a-z0-9]$`, and the string is not reserved.  The
`isValidWorkspaceSlug` helper checks the same conditions **except** the
reserved-slug set (so a reserved string passing the pattern is accepted
by it). -/
theorem slugValidationRules :
    (∀ s : String, createWorkspaceSlugValid s = true ↔
      (3 ≤ s.length ∧ s.length ≤ 50 ∧
       (∃ c, s.data.head? = some c ∧ c.isLower = true) ∧
       (∃ c, s.data.getLast? = some c ∧
         (c.isAlpha = true ∨ c.isDigit = true)) ∧
       hasDoubleHyphen s.data = false ∧ matchesSlugPattern s = true ∧
       s ∉ RESERVED_SLUGS)) ∧
    (∀ s : String, isValidWorkspaceSlug s = true ↔
      (3 ≤ s.length ∧ s.length ≤ 50 ∧ hasDoubleHyphen s.data = false ∧
       matchesSlugPattern s = true)) := by
  have hcontains : ∀ s : String, (RESERVED_SLUGS.contains s = false) ↔
      s ∉ RESERVED_SLUGS := by
    intro s
    rw [← Bool.not_eq_true]
    exact not_congr List.elem_iff
  constructor
  · intro s
    unfold createWorkspaceSlugValid
    simp only [Bool.and_eq_true, decide_eq_true_eq, Bool.not_eq_true']
    constructor
    · rintro ⟨⟨⟨⟨hlen1, hlen2⟩, hpat⟩, hd⟩, hres⟩
      obtain ⟨c1, hc1, hc1l⟩ := matchesSlugPattern_head hpat
      obtain ⟨c2, hc2, hc2a⟩ := matchesSlugPattern_last hpat
      exact ⟨hlen1, hlen2, ⟨c1, hc1, isLowerAlpha_isLower hc1l⟩,
        ⟨c2, hc2, isLowerAlnum_alpha_or_digit hc2a⟩, hd, hpat,
        (hcontains s).mp hres⟩
    · rintro ⟨hlen1, hlen2, -, -, hd, hpat, hres⟩
      exact ⟨⟨⟨⟨hlen1, hlen2⟩, hpat⟩, hd⟩, (hcontains s).mpr hres⟩
  · intro s
    unfold isValidWorkspaceSlug
    by_cases h1 : (s.length < 3 || s.length > 50) = true
    · rw [if_pos h1]
      simp only [Bool.or_eq_true, decide_eq_true_eq] at h1
      constructor
      · intro h
        simp at h
      · rintro ⟨hlen1, hlen2, -, -⟩
        rcases h1 with h1 | h1 <;> omega
    · rw [if_neg h1]
      simp only [Bool.or_eq_true, decide_eq_true_eq, not_or, Nat.not_lt] at h1
      by_cases h2 : matchesSlugPattern s = true
      · rw [if_neg (by rw [h2]; simp)]
        by_cases h3 : hasDoubleHyphen s.data = true
        · rw [if_pos h3]
          constructor
          · intro h
            simp at h
          · rintro ⟨-, -, hd, -⟩
            rw [h3] at hd
            simp at hd
        · rw [if_neg h3]
          rw [Bool.not_eq_true] at h3
          refine ⟨fun _ => ⟨h1.1, by omega, h3, h2⟩, fun _ => rfl⟩
      · rw [if_pos ?_]
        · constructor
          · intro h
            simp at h
          · rintro ⟨-, -, -, hpat⟩
            exact absurd hpat h2
        · rw [Bool.not_eq_true] at h2
          rw [h2]
          simp

/-- Number of invitation rows of one `(workspaceId, email)` key. -/
def inviteKeyCount (db : DB) (workspaceId email : String) : Nat :=
  db.workspaceInvitations.countP fun i =>
    i.workspaceId == workspaceId && i.email == email

/-- **C5 (counterexample).** The claim "rejected … exactly when … a
pending (non-accepted, non-expired) invitation for that email already
exists" is false: `invitations.create` checks for **any** invitation
row of the `(workspaceId, email)` key.  Here the only invitation for
`bob@example.com` is already accepted (`acceptedAt = some 5`, hence not
pending) and the email belongs to no member, yet the owner's create
call is rejected with CONFLICT instead of succeeding. -/
theorem inviteCreatePending_counterexample :
    (invitationsCreate
        ⟨[⟨"w1", "Acme", "acme", "free", none, none, none, none, false,
           0, 0⟩],
         [⟨"w1", "alice", .owner, 0, 0⟩],
         [⟨"i1", "w1", "bob@example.com", .editor, "tok1", "alice",
           900000000000, some 5, 0⟩],
         [⟨"alice", "alice@example.com"⟩]⟩
        ⟨"alice", "alice@example.com"⟩ ⟨"w1", "bob@example.com", .editor⟩
        100 "i2" "tok2").1 =
      .error ⟨.CONFLICT,
        "An invitation has already been sent to this email"⟩ ∧
    emailHasMembership
        ⟨[⟨"w1", "Acme", "acme", "free", none, none, none, none, false,
           0, 0⟩],
         [⟨"w1", "alice", .owner, 0, 0⟩],
         [⟨"i1", "w1", "bob@example.com", .editor, "tok1", "alice",
           900000000000, some 5, 0⟩],
         [⟨"alice", "alice@example.com"⟩]⟩ "w1" "bob@example.com" = false ∧
    (⟨"i1", "w1", "bob@example.com", .editor, "tok1", "alice",
      900000000000, some 5, 0⟩ : WorkspaceInvitation).acceptedAt ≠ none ∧
    (100 : Nat) < 900000000000 := by
  exact ⟨rfl, rfl, by simp, by simp⟩

/-- **C5 (amended).** For an authorized caller (owner or admin, not hit
by the admin-invites-admin rule), `invitations.create` is rejected with
a CONFLICT error exactly when the invited email already belongs to a
current member or **any** invitation row (pending, accepted or expired)
for that email already exists in the workspace; otherwise it succeeds
and appends an invitation expiring 7 days after `now`, preserving the
invariant of at most one invitation row — hence at most one pending
invitation — per `(workspaceId, email)`. -/
theorem inviteCreateConflict :
    ∀ db ctx (input : CreateInvitationInput) now newId token m,
      getWorkspaceMembership db input.workspaceId ctx.userId = some m →
      isAdminOrOwner m.role = true →
      (m.role == Role.admin && input.role == InputRole.admin) = false →
      ((∃ e, (invitationsCreate db ctx input now newId token).1 =
          .error e) ↔
        (emailHasMembership db input.workspaceId (jsToLower input.email) =
            true ∨
         ∃ i ∈ db.workspaceInvitations,
           i.workspaceId = input.workspaceId ∧
           i.email = jsToLower input.email)) ∧
      (∀ e, (invitationsCreate db ctx input now newId token).1 =
          .error e →
        e.code = .CONFLICT ∧
        (invitationsCreate db ctx input now newId token).2 = db) ∧
      (∀ inv, (invitationsCreate db ctx input now newId token).1 =
          .ok inv →
        inv.expiresAt = now + 7 * 24 * 60 * 60 * 1000 ∧
        (invitationsCreate db ctx input now newId token).2 =
          { db with workspaceInvitations :=
              db.workspaceInvitations ++ [inv] } ∧
        ((∀ wid em, inviteKeyCount db wid em ≤ 1) →
          ∀ wid em, inviteKeyCount
            (invitationsCreate db ctx input now newId token).2 wid em ≤
              1)) := by
  intro db ctx input now newId token m hm hadm hpromote
  unfold invitationsCreate
  simp only [hm]
  rw [if_neg (by rw [hadm]; simp), if_neg (by rw [hpromote]; simp)]
  by_cases hmem : emailHasMembership db input.workspaceId
      (jsToLower input.email) = true
  · rw [if_pos hmem]
    exact ⟨⟨fun _ => Or.inl hmem, fun _ => ⟨_, rfl⟩⟩,
      fun e he => ⟨by cases he; rfl, rfl⟩, fun inv hinv => by simp at hinv⟩
  · rw [if_neg hmem]
    by_cases hfind : (db.workspaceInvitations.find? fun i =>
        i.workspaceId == input.workspaceId &&
        i.email == jsToLower input.email).isSome = true
    · rw [if_pos hfind]
      refine ⟨⟨fun _ => Or.inr ?_, fun _ => ⟨_, rfl⟩⟩,
        fun e he => ⟨by cases he; rfl, rfl⟩,
        fun inv hinv => by simp at hinv⟩
      rw [Option.isSome_iff_exists] at hfind
      obtain ⟨i, hi⟩ := hfind
      have hmemi := List.mem_of_find?_eq_some hi
      have hpred := List.find?_some hi
      rw [Bool.and_eq_true] at hpred
      exact ⟨i, hmemi, by simpa using hpred.1, by simpa using hpred.2⟩
    · rw [if_neg hfind]
      rw [Option.not_isSome_iff_eq_none, List.find?_eq_none] at hfind
      refine ⟨⟨fun he => ?_, fun hr => ?_⟩, fun e he => by simp at he,
        fun inv hinv => ?_⟩
      · obtain ⟨e, he⟩ := he
        simp at he
      · exfalso
        rcases hr with hr | ⟨i, hi, hwid, hemail⟩
        · exact absurd hr hmem
        · have := hfind i hi
          rw [hwid, hemail] at this
          simp at this
      · cases hinv
        refine ⟨rfl, rfl, ?_⟩
        intro hone wid em
        unfold inviteKeyCount at hone ⊢
        simp only [List.countP_append, List.countP_cons, List.countP_nil]
        by_cases hk : ((⟨newId, input.workspaceId, jsToLower input.email,
            input.role.toRole, token, ctx.userId,
            now + 7 * 24 * 60 * 60 * 1000, none,
            now⟩ : WorkspaceInvitation).workspaceId == wid &&
            (⟨newId, input.workspaceId, jsToLower input.email,
            input.role.toRole, token, ctx.userId,
            now + 7 * 24 * 60 * 60 * 1000, none,
            now⟩ : WorkspaceInvitation).email == em) = true
        · have hkey : input.workspaceId = wid ∧ jsToLower input.email = em := by
            rw [Bool.and_eq_true] at hk
            exact ⟨by simpa using hk.1, by simpa using hk.2⟩
          have h0 : List.countP (fun i => i.workspaceId == wid &&
              i.email == em) db.workspaceInvitations = 0 := by
            rw [List.countP_eq_zero]
            intro i hi
            rw [← hkey.1, ← hkey.2]
            exact hfind i hi
          simp [h0, hk]
        · rw [Bool.not_eq_true] at hk
          simp only [hk, Bool.false_eq_true, if_false, Nat.add_zero]
          exact hone wid em

/-- Database of the concrete invitation-creation scenario: one
workspace, its owner, no invitations. -/
def dbInviteW : DB :=
  ⟨[⟨"w1", "Acme", "acme", "free", none, none, none, none, false, 0, 0⟩],
   [⟨"w1", "alice", .owner, 0, 0⟩], [], [⟨"alice", "alice@example.com"⟩]⟩

theorem inviteCreateConflict_witness :
    (invitationsCreate dbInviteW ⟨"alice", "alice@example.com"⟩
        ⟨"w1", "bob@example.com", .editor⟩ 100 "i2" "tok2").2 =
      { dbInviteW with workspaceInvitations :=
          dbInviteW.workspaceInvitations ++
            [⟨"i2", "w1", "bob@example.com", InputRole.editor.toRole,
              "tok2", "alice", 100 + 7 * 24 * 60 * 60 * 1000, none,
              100⟩] } ∧
    inviteKeyCount (invitationsCreate dbInviteW
        ⟨"alice", "alice@example.com"⟩ ⟨"w1", "bob@example.com", .editor⟩
        100 "i2" "tok2").2 "w1" "bob@example.com" ≤ 1 := by
  have h := (inviteCreateConflict dbInviteW ⟨"alice", "alice@example.com"⟩
      ⟨"w1", "bob@example.com", .editor⟩ 100 "i2" "tok2"
      ⟨"w1", "alice", .owner, 0, 0⟩ rfl rfl rfl).2.2
      ⟨"i2", "w1", "bob@example.com", InputRole.editor.toRole, "tok2",
        "alice", 100 + 7 * 24 * 60 * 60 * 1000, none, 100⟩ rfl
  exact ⟨h.2.1, h.2.2 (fun wid em => by simp [inviteKeyCount, dbInviteW])
    "w1" "bob@example.com"⟩

/-- **C6.** A failed provisioning call aborts workspace creation before
any insert.  (1) In the tRPC `workspaces.create`, once the slug is
resolved and free, `provisionDatabase` failure yields the
INTERNAL_SERVER_ERROR surfacing the provisioning error, with the
database unchanged; (2) every error result of `workspaces.create`
leaves the database unchanged (no workspace row, no membership row);
(3) in the express `POST /api/workspaces` handler, with valid input, a
free slug and Neon configured, provisioning failure yields the 500
`PROVISIONING_FAILED` response with the database unchanged; (4) every
non-`created` result of that handler leaves the database unchanged.
Each embedded handler consumes the outcome of exactly one
`provisionDatabase` call — a failed call is never retried. -/
theorem provisioningFailureAborts :
    (∀ db ctx (input : CreateWorkspaceInput) suffixes
        (provision : ProvisionResult) stripe wid now s,
      provision.success = false → input.slug = some s →
      (db.workspaces.find? fun w => w.slug == s) = none →
      workspacesCreate db ctx input suffixes provision stripe wid now =
        (.error ⟨.INTERNAL_SERVER_ERROR,
          "Failed to provision database: " ++
            provision.error.getD "undefined"⟩, db)) ∧
    (∀ db ctx (input : CreateWorkspaceInput) suffixes
        (provision : ProvisionResult) stripe wid now e d,
      workspacesCreate db ctx input suffixes provision stripe wid now =
        (.error e, d) → d = db) ∧
    (∀ db userId name slug (provision : ProvisionResult) wid now,
      (1 ≤ name.length ∧ name.length ≤ 100 ∧ 3 ≤ slug.length ∧
        slug.length ≤ 50 ∧ matchesSlugPattern slug = true) →
      (db.workspaces.find? fun w => w.slug == slug) = none →
      provision.success = false →
      restCreateWorkspace db userId name slug true provision wid now =
        (.provisioningFailed, db)) ∧
    (∀ db userId name slug neonConfigured (provision : ProvisionResult)
        wid now r d,
      restCreateWorkspace db userId name slug neonConfigured provision
        wid now = (r, d) →
      (r = .validationFailed ∨ r = .slugExists ∨
        r = .provisioningFailed) → d = db) := by
  refine ⟨?_, ?_, ?_, ?_⟩
  · intro db ctx input suffixes provision stripe wid now s hprov hslug hfind
    unfold workspacesCreate
    simp only [hslug, hfind, Option.isSome_none, Bool.false_eq_true,
      if_false, hprov, Bool.not_false, if_true]
  · intro db ctx input suffixes provision stripe wid now e d h
    unfold workspacesCreate at h
    cases hslug : input.slug with
    | some s =>
      simp only [hslug] at h
      split at h
      · simp only [Prod.mk.injEq] at h
        exact h.2.symm
      · split at h
        · simp only [Prod.mk.injEq] at h
          exact h.2.symm
        · simp at h
    | none =>
      simp only [hslug] at h
      cases hg : generateUniqueSlug (fun s =>
          (db.workspaces.find? fun w => w.slug == s).isSome) input.name
          suffixes with
      | error msg =>
        simp only [hg] at h
        simp only [Prod.mk.injEq] at h
        exact h.2.symm
      | ok s =>
        simp only [hg] at h
        split at h
        · simp only [Prod.mk.injEq] at h
          exact h.2.symm
        · split at h
          · simp only [Prod.mk.injEq] at h
            exact h.2.symm
          · simp at h
  · intro db userId name slug provision wid now hvalid hfind hprov
    obtain ⟨h1, h2, h3, h4, h5⟩ := hvalid
    unfold restCreateWorkspace
    rw [if_neg (by simp [h1, h2, h3, h4, h5])]
    simp only [hfind, Option.isSome_none, Bool.false_eq_true, if_false,
      hprov, Bool.not_false, Bool.and_true, if_true]
  · intro db userId name slug neonConfigured provision wid now r d h hr
    unfold restCreateWorkspace at h
    split at h
    · simp only [Prod.mk.injEq] at h
      exact h.2.symm
    · split at h
      · simp only [Prod.mk.injEq] at h
        exact h.2.symm
      · split at h
        · simp only [Prod.mk.injEq] at h
          exact h.2.symm
        · simp only [Prod.mk.injEq] at h
          rw [← h.1] at hr
          rcases hr with hr | hr | hr <;> simp at hr

theorem provisioningFailureAborts_witness :
    workspacesCreate
        ⟨[], [], [], []⟩ ⟨"alice", "alice@example.com"⟩
        ⟨"Acme", some "acme", false⟩ []
        ⟨false, some "neon quota exceeded", none, none, none⟩ none "w1" 0 =
      (.error ⟨.INTERNAL_SERVER_ERROR,
        "Failed to provision database: neon quota exceeded"⟩,
       ⟨[], [], [], []⟩) ∧
    restCreateWorkspace ⟨[], [], [], []⟩ "alice" "Acme" "acme" true
        ⟨false, some "neon quota exceeded", none, none, none⟩ "w1" 0 =
      (.provisioningFailed, ⟨[], [], [], []⟩) := by
  constructor
  · exact provisioningFailureAborts.1 ⟨[], [], [], []⟩ _ _ [] _ none "w1" 0
      "acme" rfl rfl rfl
  · exact provisioningFailureAborts.2.2.1 ⟨[], [], [], []⟩ "alice" "Acme"
      "acme" _ "w1" 0 ⟨by decide, by decide, by decide, by decide, rfl⟩
      rfl rfl

/-! ## Unique-slug generation lemmas -/

lemma generateUniqueSlugLoop_ok {taken : String → Bool} {baseSlug : String} :
    ∀ {slug : String} {suffixes : List String} {s : String},
      generateUniqueSlugLoop taken baseSlug slug suffixes = .ok s →
      taken s = false ∧
        (s = slug ∨ ∃ x ∈ suffixes, s = baseSlug ++ "-" ++ x) := by
  intro slug suffixes
  induction suffixes generalizing slug with
  | nil =>
    intro s h
    simp [generateUniqueSlugLoop] at h
  | cons suffix rest ih =>
    intro s h
    unfold generateUniqueSlugLoop at h
    by_cases ht : taken slug = true
    · rw [if_pos ht] at h
      obtain ⟨hfree, hshape⟩ := ih h
      refine ⟨hfree, ?_⟩
      rcases hshape with hshape | ⟨x, hx, hshape⟩
      · exact Or.inr ⟨suffix, List.mem_cons_self _ _, hshape⟩
      · exact Or.inr ⟨x, List.mem_cons_of_mem _ hx, hshape⟩
    · rw [if_neg ht] at h
      cases h
      exact ⟨Bool.not_eq_true _ |>.mp ht, Or.inl rfl⟩

lemma generateUniqueSlugLoop_error_iff {taken : String → Bool}
    {baseSlug : String} :
    ∀ {slug : String} {suffixes : List String},
      (generateUniqueSlugLoop taken baseSlug slug suffixes =
        .error "Could not generate a unique slug after multiple attempts" ↔
      ∀ c ∈ slugCandidates baseSlug slug suffixes, taken c = true) := by
  intro slug suffixes
  induction suffixes generalizing slug with
  | nil =>
    simp [generateUniqueSlugLoop, slugCandidates]
  | cons suffix rest ih =>
    unfold generateUniqueSlugLoop slugCandidates
    by_cases ht : taken slug = true
    · rw [if_pos ht]
      rw [ih]
      constructor
      · intro h c hc
        rcases List.mem_cons.mp hc with hc | hc
        · rw [hc]; exact ht
        · exact h c hc
      · intro h c hc
        exact h c (List.mem_cons_of_mem _ hc)
    · rw [if_neg ht]
      constructor
      · intro h
        simp at h
      · intro h
        exact absurd (h slug (List.mem_cons_self _ _)) ht

lemma slugCandidates_length {baseSlug : String} :
    ∀ {slug : String} {suffixes : List String},
      (slugCandidates baseSlug slug suffixes).length = suffixes.length := by
  intro slug suffixes
  induction suffixes generalizing slug with
  | nil => rfl
  | cons suffix rest ih => simp [slugCandidates, ih]

lemma slugCandidates_shape {baseSlug : String} :
    ∀ {slug : String} {suffixes : List String} {c : String},
      c ∈ slugCandidates baseSlug slug suffixes →
      c = slug ∨ ∃ x ∈ suffixes, c = baseSlug ++ "-" ++ x := by
  intro slug suffixes
  induction suffixes generalizing slug with
  | nil =>
    intro c hc
    simp [slugCandidates] at hc
  | cons suffix rest ih =>
    intro c hc
    unfold slugCandidates at hc
    rcases List.mem_cons.mp hc with hc | hc
    · exact Or.inl hc
    · rcases ih hc with hc | ⟨x, hx, hc⟩
      · exact Or.inr ⟨suffix, List.mem_cons_self _ _, hc⟩
      · exact Or.inr ⟨x, List.mem_cons_of_mem _ hx, hc⟩

/-- **C7.** `generateUniqueSlug` never returns a slug present in
storage: an `ok` result is a candidate with `taken` false (the base
slug or the base slug, a hyphen and one of the drawn suffixes); with
the call site's ten suffixes it fails with the fixed error exactly when
all ten probed candidates are taken (so it never loops); the loop
probes exactly ten candidates; and when the suffix oracle draws
4-character lowercase-alphanumeric strings — as
`Math.random().toString(36).substring(2, 6)` is specified to — every
retry candidate is the base slug extended with a hyphen and such a
suffix. -/
theorem generateUniqueSlugSpec :
    (∀ (taken : String → Bool) name suffixes s,
      generateUniqueSlug taken name suffixes = .ok s →
      taken s = false ∧
        (s = slugify name ∨
         ∃ x ∈ suffixes, s = slugify name ++ "-" ++ x)) ∧
    (∀ (taken : String → Bool) name (suffixes : List String),
      suffixes.length = 10 →
      (generateUniqueSlug taken name suffixes =
          .error
            "Could not generate a unique slug after multiple attempts" ↔
        ∀ c ∈ slugCandidates (slugify name) (slugify name) suffixes,
          taken c = true)) ∧
    (∀ name (suffixes : List String), suffixes.length = 10 →
      (slugCandidates (slugify name) (slugify name) suffixes).length =
        10) ∧
    (∀ name (suffixes : List String) c,
      (∀ x ∈ suffixes, x.length = 4 ∧
        ∀ ch ∈ x.data, isLowerAlnum ch = true) →
      c ∈ slugCandidates (slugify name) (slugify name) suffixes →
      c = slugify name ∨
        ∃ x, c = slugify name ++ "-" ++ x ∧ x.length = 4 ∧
          ∀ ch ∈ x.data, isLowerAlnum ch = true) := by
  refine ⟨?_, ?_, ?_, ?_⟩
  · intro taken name suffixes s h
    exact generateUniqueSlugLoop_ok h
  · intro taken name suffixes _
    exact generateUniqueSlugLoop_error_iff
  · intro name suffixes h10
    rw [slugCandidates_length, h10]
  · intro name suffixes c hx hc
    rcases slugCandidates_shape hc with hc | ⟨x, hxmem, hc⟩
    · exact Or.inl hc
    · exact Or.inr ⟨x, hc, (hx x hxmem).1, (hx x hxmem).2⟩

theorem generateUniqueSlugSpec_witness :
    (fun s => s == "abc") "abc-aaaa" = false ∧
    ("abc-aaaa" = slugify "abc" ∨
      ∃ x ∈ ["aaaa", "bbbb", "cccc", "dddd", "eeee", "ffff", "gggg",
             "hhhh", "iiii", "jjjj"],
        "abc-aaaa" = slugify "abc" ++ "-" ++ x) := by
  exact generateUniqueSlugSpec.1 (fun s => s == "abc") "abc"
    ["aaaa", "bbbb", "cccc", "dddd", "eeee", "ffff", "gggg", "hhhh",
     "iiii", "jjjj"] "abc-aaaa" rfl

/-! ## Stripe signature-parse characterization -/

/-- The final value of the loop's `timestamp` accumulator (a parse
failure would return early, so its value here is irrelevant and the
accumulator is kept). -/
def sigFinalT : List (String × Option String) → Int → Int
  | [], t => t
  | (k, v) :: rest, t =>
    if k == "t" then
      match jsParseInt v with
      | some n => sigFinalT rest n
      | none => sigFinalT rest t
    else sigFinalT rest t

/-- The values collected into `signatures` by the loop: the value of
every `v1` part, in order. -/
def sigV1s : List (String × Option String) → List (Option String)
  | [] => []
  | (k, v) :: rest =>
    if k == "v1" then v :: sigV1s rest else sigV1s rest

lemma sigScan_none_iff :
    ∀ (parts : List (String × Option String)) (t0 : Int)
      (sigs0 : List (Option String)),
      sigScan parts t0 sigs0 = none ↔
        ((∃ p ∈ parts, p.1 = "t" ∧ jsParseInt p.2 = none) ∨
         sigFinalT parts t0 = 0 ∨ sigs0 ++ sigV1s parts = []) := by
  intro parts
  induction parts with
  | nil =>
    intro t0 sigs0
    unfold sigScan sigFinalT sigV1s
    simp only [List.append_nil, List.not_mem_nil, false_and, exists_false,
      exists_prop, false_or]
    by_cases h : (t0 == 0 || sigs0.isEmpty) = true
    · rw [if_pos h]
      simp only [Bool.or_eq_true, beq_iff_eq, List.isEmpty_iff] at h
      simpa using h
    · rw [if_neg h]
      simp only [Bool.or_eq_true, beq_iff_eq, List.isEmpty_iff, not_or] at h
      simpa using h
  | cons p rest ih =>
    obtain ⟨k, v⟩ := p
    intro t0 sigs0
    unfold sigScan sigFinalT sigV1s
    by_cases hk : (k == "t") = true
    · have hk' : k = "t" := by simpa using hk
      subst hk'
      rw [if_pos hk, if_pos hk, if_neg (by decide)]
      cases hp : jsParseInt v with
      | none =>
        simp only [hp]
        constructor
        · intro _
          exact Or.inl ⟨("t", v), List.mem_cons_self _ _, rfl, hp⟩
        · intro _
          trivial
      | some n =>
        simp only [hp]
        rw [ih n sigs0]
        constructor
        · rintro (⟨q, hq, h1, h2⟩ | h | h)
          · exact Or.inl ⟨q, List.mem_cons_of_mem _ hq, h1, h2⟩
          · exact Or.inr (Or.inl h)
          · exact Or.inr (Or.inr h)
        · rintro (⟨q, hq, h1, h2⟩ | h | h)
          · rcases List.mem_cons.mp hq with hq | hq
            · exfalso
              rw [hq] at h2
              simp only at h2
              rw [hp] at h2
              exact Option.some_ne_none n h2
            · exact Or.inl ⟨q, hq, h1, h2⟩
          · exact Or.inr (Or.inl h)
          · exact Or.inr (Or.inr h)
    · rw [if_neg hk, if_neg hk]
      have hkt : k ≠ "t" := by simpa using hk
      by_cases hv : (k == "v1") = true
      · rw [if_pos hv, if_pos hv]
        rw [ih t0 (sigs0 ++ [v])]
        have happ : (sigs0 ++ [v]) ++ sigV1s rest =
            sigs0 ++ (v :: sigV1s rest) := by
          rw [List.append_assoc]
          rfl
        rw [happ]
        constructor
        · rintro (⟨q, hq, h1, h2⟩ | h | h)
          · exact Or.inl ⟨q, List.mem_cons_of_mem _ hq, h1, h2⟩
          · exact Or.inr (Or.inl h)
          · exact Or.inr (Or.inr h)
        · rintro (⟨q, hq, h1, h2⟩ | h | h)
          · rcases List.mem_cons.mp hq with hq | hq
            · exfalso
              rw [hq] at h1
              exact hkt h1
            · exact Or.inl ⟨q, hq, h1, h2⟩
          · exact Or.inr (Or.inl h)
          · exact Or.inr (Or.inr h)
      · rw [if_neg hv, if_neg hv]
        rw [ih t0 sigs0]
        constructor
        · rintro (⟨q, hq, h1, h2⟩ | h | h)
          · exact Or.inl ⟨q, List.mem_cons_of_mem _ hq, h1, h2⟩
          · exact Or.inr (Or.inl h)
          · exact Or.inr (Or.inr h)
        · rintro (⟨q, hq, h1, h2⟩ | h | h)
          · rcases List.mem_cons.mp hq with hq | hq
            · exfalso
              rw [hq] at h1
              exact hkt h1
            · exact Or.inl ⟨q, hq, h1, h2⟩
          · exact Or.inr (Or.inl h)
          · exact Or.inr (Or.inr h)

lemma sigScan_some :
    ∀ (parts : List (String × Option String)) (t0 : Int)
      (sigs0 : List (Option String)) (t : Int)
      (sigs : List (Option String)),
      sigScan parts t0 sigs0 = some (t, sigs) →
      t = sigFinalT parts t0 ∧ sigs = sigs0 ++ sigV1s parts ∧
        t ≠ 0 ∧ sigs ≠ [] := by
  intro parts
  induction parts with
  | nil =>
    intro t0 sigs0 t sigs h
    unfold sigScan at h
    by_cases hc : (t0 == 0 || sigs0.isEmpty) = true
    · rw [if_pos hc] at h
      simp at h
    · rw [if_neg hc] at h
      simp only [Bool.or_eq_true, beq_iff_eq, List.isEmpty_iff, not_or]
        at hc
      cases h
      exact ⟨rfl, (List.append_nil _).symm, hc.1, hc.2⟩
  | cons p rest ih =>
    obtain ⟨k, v⟩ := p
    intro t0 sigs0 t sigs h
    unfold sigScan at h
    unfold sigFinalT sigV1s
    by_cases hk : (k == "t") = true
    · have hk' : k = "t" := by simpa using hk
      subst hk'
      rw [if_pos hk] at h
      rw [if_pos hk, if_neg (by decide)]
      cases hp : jsParseInt v with
      | none =>
        rw [hp] at h
        simp at h
      | some n =>
        rw [hp] at h
        simp only
        exact ih n sigs0 t sigs h
    · rw [if_neg hk] at h
      rw [if_neg hk]
      by_cases hv : (k == "v1") = true
      · rw [if_pos hv] at h
        rw [if_pos hv]
        obtain ⟨h1, h2, h3, h4⟩ := ih t0 (sigs0 ++ [v]) t sigs h
        refine ⟨h1, ?_, h3, h4⟩
        rw [h2, List.append_assoc]
        rfl
      · rw [if_neg hv] at h
        rw [if_neg hv]
        exact ih t0 sigs0 t sigs h

/-- **C8 (counterexample).** The claim "returns null exactly when the
timestamp is missing, non-numeric, or no v1 entries are present" is
false at `"t=0,v1=abc"`: the `t` entry is present and numeric (it
parses to the integer `0`) and a `v1` entry is present, yet the parser
returns null, because `timestamp === 0` is treated as missing. -/
theorem parseSignatureZero_counterexample :
    parseStripeSignature "t=0,v1=abc" = none ∧
    sigParts "t=0,v1=abc" = [("t", some "0"), ("v1", some "abc")] ∧
    jsParseInt (some "0") = some 0 := by
  exact ⟨rfl, rfl, rfl⟩

/-- **C8 (amended).** `parseStripeSignature`, on a comma-separated
`key=value` header, returns the parsed integer `t` timestamp and the
list of all `v1` values in order, ignoring unrecognized keys; it
returns null exactly when some `t` entry is non-numeric, the final
timestamp is `0` — which covers both a missing `t` entry and a `t`
entry parsing to the integer `0` — or no `v1` entries are present.
The claim's examples hold: `"t=1234567890,v1=abc123,v1=def456"` parses
to timestamp `1234567890` with signatures `["abc123", "def456"]`, while
`"v1=abc123"` and `"t=abc,v1=def"` yield null. -/
theorem parseStripeSignatureSpec :
    (∀ header, parseStripeSignature header = none ↔
      ((∃ p ∈ sigParts header, p.1 = "t" ∧ jsParseInt p.2 = none) ∨
       sigFinalT (sigParts header) 0 = 0 ∨
       sigV1s (sigParts header) = [])) ∧
    (∀ header t sigs, parseStripeSignature header = some (t, sigs) →
      t = sigFinalT (sigParts header) 0 ∧ t ≠ 0 ∧
      sigs = sigV1s (sigParts header) ∧ sigs ≠ []) ∧
    parseStripeSignature "t=1234567890,v1=abc123,v1=def456" =
      some (1234567890, [some "abc123", some "def456"]) ∧
    parseStripeSignature "v1=abc123" = none ∧
    parseStripeSignature "t=abc,v1=def" = none := by
  refine ⟨?_, ?_, rfl, rfl, rfl⟩
  · intro header
    unfold parseStripeSignature
    rw [sigScan_none_iff]
    rfl
  · intro header t sigs h
    unfold parseStripeSignature at h
    obtain ⟨h1, h2, h3, h4⟩ := sigScan_some _ 0 [] t sigs h
    exact ⟨h1, h3, by simpa using h2, h4⟩

theorem parseStripeSignatureSpec_witness :
    (1234567890 : Int) =
        sigFinalT (sigParts "t=1234567890,v1=abc123,v1=def456") 0 ∧
      (1234567890 : Int) ≠ 0 ∧
      [some "abc123", some "def456"] =
        sigV1s (sigParts "t=1234567890,v1=abc123,v1=def456") ∧
      ([some "abc123", some "def456"] : List (Option String)) ≠ [] := by
  exact parseStripeSignatureSpec.2.1 "t=1234567890,v1=abc123,v1=def456"
    1234567890 [some "abc123", some "def456"] rfl

/-- **C9.** `parseStripeSignature` returns null for any header whose
`t` entries all parse to the integer `0` (e.g. `"t=0,v1=abc"`): a
present, numeric zero timestamp is treated the same as a missing
timestamp, because the loop's accumulator starts at `0` and the final
`timestamp === 0` check cannot tell the two apart. -/
theorem parseSignatureZeroTimestamp :
    ∀ header,
      (∀ p ∈ sigParts header, p.1 = "t" → jsParseInt p.2 = some 0) →
      parseStripeSignature header = none := by
  have hfin : ∀ (parts : List (String × Option String)),
      (∀ p ∈ parts, p.1 = "t" → jsParseInt p.2 = some 0) →
      sigFinalT parts 0 = 0 := by
    intro parts
    induction parts with
    | nil => intro _; rfl
    | cons p rest ih =>
      obtain ⟨k, v⟩ := p
      intro h
      unfold sigFinalT
      by_cases hk : (k == "t") = true
      · rw [if_pos hk]
        have := h (k, v) (List.mem_cons_self _ _) (by simpa using hk)
        rw [this]
        exact ih fun q hq => h q (List.mem_cons_of_mem _ hq)
      · rw [if_neg hk]
        exact ih fun q hq => h q (List.mem_cons_of_mem _ hq)
  intro header h
  unfold parseStripeSignature
  rw [sigScan_none_iff]
  exact Or.inr (Or.inl (hfin _ h))

theorem parseSignatureZeroTimestamp_witness :
    parseStripeSignature "t=0,v1=abc" = none := by
  exact parseSignatureZeroTimestamp "t=0,v1=abc" (by decide)

/-! ## Lookup-by-token lemmas -/

lemma joined_head_eq {invs : List WorkspaceInvitation}
    {wss : List Workspace} {token : String} {inv : WorkspaceInvitation}
    {w : Workspace}
    (hinv : invs.find? (fun i => i.token == token) = some inv)
    (hw : wss.find? (fun x => x.id == inv.workspaceId) = some w) :
    ((invs.flatMap fun i =>
        (wss.filter fun x => x.id == i.workspaceId).map fun x =>
          (i, x)).filter fun p => p.1.token == token).head? =
      some (inv, w) := by
  induction invs with
  | nil => simp at hinv
  | cons i0 rest ih =>
    rw [List.flatMap_cons, List.filter_append, List.filter_map]
    by_cases h0 : (i0.token == token) = true
    · simp only [List.find?_cons, h0] at hinv
      have hii : i0 = inv := by injection hinv
      subst hii
      have hcomp : ((fun p : WorkspaceInvitation × Workspace =>
          p.1.token == token) ∘ fun x => (i0, x)) =
          fun _ : Workspace => i0.token == token := rfl
      rw [hcomp]
      simp only [h0, List.filter_true]
      rw [← List.filter_head? (fun x => x.id == i0.workspaceId) wss] at hw
      cases hfw : wss.filter fun x => x.id == i0.workspaceId with
      | nil => rw [hfw] at hw; simp at hw
      | cons w0 tail =>
        rw [hfw] at hw
        rw [List.head?_cons] at hw
        cases hw
        rw [List.map_cons, List.cons_append, List.head?_cons]
    · rw [Bool.not_eq_true] at h0
      simp only [List.find?_cons, h0] at hinv
      have hcomp : ((fun p : WorkspaceInvitation × Workspace =>
          p.1.token == token) ∘ fun x => (i0, x)) =
          fun _ : Workspace => i0.token == token := rfl
      rw [hcomp]
      simp only [h0, List.filter_false, List.nil_append]
      exact ih hinv

/-- **C10.** For every token whose invitation row is present (and whose
workspace row is present, which referential integrity guarantees),
`invitations.getByToken` returns the invitation's details — email,
role, expiry, acceptance timestamp and the workspace id/name/slug —
for **any** expiry and acceptance values, including already-expired and
already-accepted invitations (neither is checked at lookup), and
returns the database unchanged (no state mutation). -/
theorem getByTokenSpec :
    ∀ db token inv w,
      (db.workspaceInvitations.find? fun i => i.token == token) =
        some inv →
      (db.workspaces.find? fun x => x.id == inv.workspaceId) = some w →
      invitationsGetByToken db token =
        (.ok ⟨inv.id, inv.email, inv.role, inv.expiresAt, inv.acceptedAt,
              w.id, w.name, w.slug⟩, db) := by
  intro db token inv w hinv hw
  unfold invitationsGetByToken
  rw [joined_head_eq hinv hw]

theorem getByTokenSpec_witness :
    invitationsGetByToken
        ⟨[⟨"w1", "Acme", "acme", "free", none, none, none, none, false,
           0, 0⟩],
         [⟨"w1", "alice", .owner, 0, 0⟩],
         [⟨"i1", "w1", "bob@example.com", .editor, "tok1", "alice",
           10, some 5, 0⟩],
         []⟩ "tok1" =
      (.ok ⟨"i1", "bob@example.com", .editor, 10, some 5,
            "w1", "Acme", "acme"⟩,
       ⟨[⟨"w1", "Acme", "acme", "free", none, none, none, none, false,
          0, 0⟩],
        [⟨"w1", "alice", .owner, 0, 0⟩],
        [⟨"i1", "w1", "bob@example.com", .editor, "tok1", "alice",
          10, some 5, 0⟩],
        []⟩) := by
  exact getByTokenSpec _ "tok1"
    ⟨"i1", "w1", "bob@example.com", .editor, "tok1", "alice", 10,
     some 5, 0⟩
    ⟨"w1", "Acme", "acme", "free", none, none, none, none, false, 0, 0⟩
    rfl rfl

end SchemafulCloud
